import Mathlib

/-!
Verification of the Miniworld turn & visibility engine (Python prototype).

This file gives a shallow embedding of the core subsystems of the
repository's `Python prototype` directory:

* `TurnManager` (turn scheduler, `turn_manager.py`),
* `EventDispatcher` (visibility router, `core/event_dispatcher.py`),
* `EventBus` (the second, parallel observer registry, `core/event_bus.py`),
* `EventHandler` (streaming-turn coordinator, `event_handler.py`).

Modelling conventions:

* Python strings are modelled as `List Char` (`PyStr`); the handful of
  string operations the code uses (`strip`, `lower`, `split`, `startswith`,
  substring membership, `replace`, and the three literal regular
  expressions) are implemented as executable functions below.
* Python `dict`s are modelled as insertion-ordered association lists;
  assignment to an existing key keeps its position, assignment to a fresh
  key appends (CPython's documented iteration order).
* `sorted(..., key=k)` is modelled by a stable insertion sort
  (`sortByKey`), `min(xs)` / `min(xs, key=k)` by `minD` / `minByKey`
  (first minimum wins, as in CPython).
* Python integers are `Int`.  Wall-clock time (used only by the
  `EventBus` dedup logic) is modelled as `Nat` ticks of a tenth of a
  second; the fingerprint's coarse `%H:%M:%S` stamp is `t / 10`, and the
  3-second expiry window is 30 ticks.
-/

set_option maxRecDepth 4000

/-- Python strings as lists of characters. -/
abbrev PyStr := List Char

namespace PyStr

/-- Python `str.strip()` (both ends, whitespace). -/
def trim (s : PyStr) : PyStr :=
  ((s.dropWhile Char.isWhitespace).reverse.dropWhile Char.isWhitespace).reverse

/-- Python `str.lower()` (ASCII case fold, which is all the code relies on). -/
def toLower (s : PyStr) : PyStr := s.map Char.toLower

/-- Python `s.split(c)` for a single-character separator. -/
def splitOnChar (c : Char) : PyStr → List PyStr
  | [] => [[]]
  | x :: xs =>
    let r := splitOnChar c xs
    if x = c then [] :: r
    else
      match r with
      | [] => [[x]]
      | y :: ys => (x :: y) :: ys

/-- Python `pat in s` (substring membership). -/
def containsSub (pat : PyStr) : PyStr → Bool
  | [] => pat.isEmpty
  | x :: xs => pat.isPrefixOf (x :: xs) || containsSub pat xs

/-- Index of the leftmost occurrence of `pat` in `s` (Python `re.search` of a
literal pattern). -/
def findSub (pat : PyStr) : PyStr → Option Nat
  | [] => if pat.isEmpty then some 0 else none
  | x :: xs =>
    if pat.isPrefixOf (x :: xs) then some 0
    else (findSub pat xs).map (· + 1)

/-- Python `s.replace(pat, rep)` for a non-empty `pat` (left-to-right,
non-overlapping). -/
def replaceAll (pat rep : PyStr) : PyStr → PyStr
  | [] => []
  | x :: xs =>
    if pat.isPrefixOf (x :: xs) ∧ ¬pat.isEmpty then
      rep ++ replaceAll pat rep ((x :: xs).drop pat.length)
    else x :: replaceAll pat rep xs
termination_by s => s.length
decreasing_by
  · simp only [List.length_drop, List.length_cons]
    have : 1 ≤ pat.length := by
      rcases pat with _ | ⟨p, ps⟩
      · simp_all
      · simp [Nat.succ_le_succ]
    omega
  · simp

/-- Python `s.split(sep, 1)[0]` and the remainder after the first separator. -/
def splitFirst (c : Char) (s : PyStr) : PyStr × PyStr :=
  (s.takeWhile (· ≠ c), (s.dropWhile (· ≠ c)).drop 1)

/-- Case-insensitive literal match: consume `tok` from the front of `s`,
returning the rest. -/
def matchCI : PyStr → PyStr → Option PyStr
  | [], s => some s
  | _ :: _, [] => none
  | c :: cs, x :: xs => if x.toLower = c.toLower then matchCI cs xs else none

/-- Consume one-or-more whitespace characters (greedy `\s+`). -/
def wsPlus : PyStr → Option PyStr
  | [] => none
  | x :: xs => if x.isWhitespace then some (xs.dropWhile Char.isWhitespace) else none

/-- Match a sequence of case-insensitive tokens, each followed by `\s+`
(the shape of the command regexes `^\s*GO\s+TO\s+`, `^\s*SAY\s+`, ...). -/
def matchToks : List PyStr → PyStr → Option PyStr
  | [], s => some s
  | t :: ts, s =>
    match matchCI t s with
    | none => none
    | some s1 =>
      match wsPlus s1 with
      | none => none
      | some s2 => matchToks ts s2

/-- Python `re.match(r'^\s*TOK1\s+...\s+', line, re.IGNORECASE)`, returning the
text after the match. -/
def matchVerbPat (toks : List PyStr) (s : PyStr) : Option PyStr :=
  matchToks toks (s.dropWhile Char.isWhitespace)

end PyStr

/-- Keys of an association list (Python `dict` key view, insertion order). -/
def keys {κ α : Type} (l : List (κ × α)) : List κ := l.map Prod.fst

/-- Values of an association list (Python `dict.values()`). -/
def valuesOf {κ α : Type} (l : List (κ × α)) : List α := l.map Prod.snd

/-- Python `d[k]` / `d.get(k)`. -/
def lookupV {κ α : Type} [DecidableEq κ] (k : κ) : List (κ × α) → Option α
  | [] => none
  | (k', v) :: rest => if k' = k then some v else lookupV k rest

/-- Python `d.get(k, dflt)`. -/
def lookupD {κ α : Type} [DecidableEq κ] (k : κ) (l : List (κ × α)) (dflt : α) : α :=
  (lookupV k l).getD dflt

/-- Python `d[k] = v`: replace in place if present, append if fresh. -/
def setVal {κ α : Type} [DecidableEq κ] (k : κ) (v : α) : List (κ × α) → List (κ × α)
  | [] => [(k, v)]
  | (k', v') :: rest => if k' = k then (k, v) :: rest else (k', v') :: setVal k v rest

namespace TurnManager

/-- Python `min` of a non-empty integer list (0 on the unreachable empty case). -/
def minD : List Int → Int
  | [] => 0
  | x :: xs => xs.foldl min x

/-- Python `max` of a non-empty integer list (0 on the unreachable empty case). -/
def maxD : List Int → Int
  | [] => 0
  | x :: xs => xs.foldl max x

/-- Python `min(candidates, key=f)`: first element with the minimal key. -/
def minByKey (f : String → Int) : List String → Option String
  | [] => none
  | c :: cs => some (cs.foldl (fun b a => if f a < f b then a else b) c)

/-- Lexicographic order on pairs, as used by Python when sorting by a
2-tuple key. -/
def lexLe (a b : Int × Int) : Bool :=
  if a.1 = b.1 then decide (a.2 ≤ b.2) else decide (a.1 < b.1)

/-- Stable insertion of `x` after all elements whose key is `≤` its own. -/
def insertSorted (key : String → Int × Int) (x : String) : List String → List String
  | [] => [x]
  | y :: ys =>
    if lexLe (key y) (key x) then y :: insertSorted key x ys
    else x :: y :: ys

/-- Python `sorted(l, key=key)` (Timsort is stable; so is this left fold of
stable insertions). -/
def sortByKey (key : String → Int × Int) (l : List String) : List String :=
  l.foldl (fun acc x => insertSorted key x acc) []

/-- State of `turn_manager.TurnManager`.  The cost-multiplier settings loaded
from the vault are irrelevant to the scheduling claims and omitted. -/
structure TM where
  time_units : List (String × Int)
  turn_history : List String
  last_turn_time : List (String × Int)
  player_name : Option String
  god_mode : Bool
  turn_mode : String
  new_memories_count : List (String × Int)
deriving Repr, DecidableEq

/-- Python `self.god_mode and self.player_name in self.time_units`. -/
def playerRegistered (st : TM) : Bool :=
  match st.player_name with
  | some p => decide (p ∈ keys st.time_units)
  | none => false

/-- Sort key `lambda c: (self.time_units[c], self.last_turn_time.get(c, 0))`. -/
def tuKey (st : TM) (c : String) : Int × Int :=
  (lookupD c st.time_units 0, lookupD c st.last_turn_time 0)

/-- Sort key `lambda c: (-self.new_memories_count.get(c, 0),
self.last_turn_time.get(c, 0))`. -/
def memKey (st : TM) (c : String) : Int × Int :=
  (-(lookupD c st.new_memories_count 0), lookupD c st.last_turn_time 0)

/-- `TurnManager._get_turn_order_by_tu`. -/
def _get_turn_order_by_tu (st : TM) : List String :=
  if st.god_mode && playerRegistered st then
    match st.player_name with
    | some p => p :: sortByKey (tuKey st) ((keys st.time_units).filter (fun c => c != p))
    | none => sortByKey (tuKey st) (keys st.time_units)
  else
    sortByKey (tuKey st) (keys st.time_units)

/-- `TurnManager._get_turn_order_by_memories`. -/
def _get_turn_order_by_memories (st : TM) : List String :=
  if st.god_mode && playerRegistered st then
    match st.player_name with
    | some p => p :: sortByKey (memKey st) ((keys st.time_units).filter (fun c => c != p))
    | none => sortByKey (memKey st) (keys st.time_units)
  else
    sortByKey (memKey st) (keys st.time_units)

/-- `TurnManager.get_turn_order`. -/
def get_turn_order (st : TM) : List String :=
  if st.turn_mode == "memories" then _get_turn_order_by_memories st
  else _get_turn_order_by_tu st

/-- `TurnManager._get_next_character_by_tu`.  Note: unlike its
`_by_memories` sibling and unlike `_get_turn_order_by_tu`, the source has
no god-mode check here. -/
def _get_next_character_by_tu (st : TM) : Option String :=
  let min_tu := minD (valuesOf st.time_units)
  let candidates := (st.time_units.filter (fun kv => kv.2 == min_tu)).map Prod.fst
  match candidates with
  | [c] => some c
  | _ => minByKey (fun c => lookupD c st.last_turn_time 0) candidates

/-- `TurnManager._get_next_character_by_memories`. -/
def _get_next_character_by_memories (st : TM) : Option String :=
  if st.god_mode && playerRegistered st then st.player_name
  else
    let candidates :=
      if (valuesOf st.new_memories_count).any (fun v => decide (0 < v)) then
        let max_memories := maxD (valuesOf st.new_memories_count)
        (st.new_memories_count.filter
          (fun kv => kv.2 == max_memories && decide (0 < kv.2))).map Prod.fst
      else keys st.time_units
    match candidates with
    | [c] => some c
    | _ => minByKey (fun c => lookupD c st.last_turn_time 0) candidates

/-- `TurnManager.get_next_character`. -/
def get_next_character (st : TM) : Option String :=
  if st.time_units.isEmpty then none
  else if st.turn_mode == "memories" then _get_next_character_by_memories st
  else _get_next_character_by_tu st

/-- `TurnManager.normalize_tu`, as a function on the TU table. -/
def normalize_tu (l : List (String × Int)) : List (String × Int) :=
  if l.isEmpty then l
  else
    let min_tu := minD (valuesOf l)
    if 0 < min_tu then l.map (fun kv => (kv.1, kv.2 - min_tu)) else l

/-- The effective cost applied by `TurnManager.add_time_units` for a
non-god-mode actor `c` whose current TU value is `tuc`.  The formula never
inspects `turn_mode` except through `get_turn_order`: the player's cost is
capped at `max 1 (next_tu - tuc + 1)` when first in order, any other
actor's cost is floored at `next_tu - tuc + 1` when first in order. -/
def effective_cost (st : TM) (c : String) (tuc tu_cost : Int) : Int :=
  let turn_order := get_turn_order st
  let current_index : Int := if c ∈ turn_order then (turn_order.indexOf c : Int) else -1
  if st.player_name == some c then
    if 1 < turn_order.length ∧ current_index = 0 then
      let next_char := (turn_order.drop 1).headD ""
      let next_tu := lookupD next_char st.time_units 0
      min tu_cost (max 1 (next_tu - tuc + 1))
    else tu_cost
  else
    let pass_cost :=
      if 1 < turn_order.length ∧ current_index = 0 then
        let next_char := (turn_order.drop 1).headD ""
        (lookupD next_char st.time_units 0) - tuc + 1
      else 0
    max tu_cost pass_cost

/-- `TurnManager.add_time_units`. -/
def add_time_units (st : TM) (c : String) (tu_cost : Int) : TM :=
  match lookupV c st.time_units with
  | none => st
  | some tuc =>
    let st1 :=
      if st.god_mode && (st.player_name == some c) then st
      else { st with time_units := setVal c (tuc + effective_cost st c tuc tu_cost) st.time_units }
    let hist := st1.turn_history ++ [c]
    { st1 with
      turn_history := hist,
      last_turn_time := setVal c (hist.length : Int) st1.last_turn_time,
      new_memories_count := setVal c 0 st1.new_memories_count,
      time_units := normalize_tu st1.time_units }

/-- `TurnManager.pass_turn`; returns the Python boolean and the new state. -/
def pass_turn (st : TM) (c : String) : Bool × TM :=
  if st.god_mode && (st.player_name == some c) then (false, st)
  else if c ∈ keys st.time_units ∧ 1 < st.time_units.length then
    if st.turn_mode == "memories" then
      let st1 := { st with new_memories_count := setVal c 0 st.new_memories_count }
      let hist := st1.turn_history ++ [c]
      let st2 := { st1 with
        turn_history := hist,
        last_turn_time := setVal c (hist.length : Int) st1.last_turn_time }
      (true, if st2.turn_mode == "time_units"
             then { st2 with time_units := normalize_tu st2.time_units } else st2)
    else
      let sorted_chars := get_turn_order st
      if sorted_chars.head? ≠ some c then (false, st)
      else
        let st1 :=
          match sorted_chars with
          | _ :: next_char :: _ =>
            { st with time_units :=
                setVal c (lookupD next_char st.time_units 0 + 1) st.time_units }
          | _ =>
            { st with time_units :=
                setVal c (lookupD c st.time_units 0 + 1) st.time_units }
        let hist := st1.turn_history ++ [c]
        let st2 := { st1 with
          turn_history := hist,
          last_turn_time := setVal c (hist.length : Int) st1.last_turn_time }
        (true, if st2.turn_mode == "time_units"
               then { st2 with time_units := normalize_tu st2.time_units } else st2)
  else (false, st)

/-- `TurnManager.register_character`. -/
def register_character (st : TM) (name : String) (is_player : Bool) : TM :=
  if name ∈ keys st.time_units then st
  else
    { st with
      time_units := st.time_units ++ [(name, if is_player then 0 else 1)],
      last_turn_time := st.last_turn_time ++ [(name, 0)],
      new_memories_count := st.new_memories_count ++ [(name, 0)],
      player_name := if is_player then some name else st.player_name }

/-- `TurnManager.set_turn_mode`. -/
def set_turn_mode (st : TM) (mode : String) : Bool × TM :=
  if mode == "time_units" || mode == "memories" then (true, { st with turn_mode := mode })
  else (false, st)

end TurnManager

/-- Event payload dictionary, with the keys the router code reads.  A missing
Python key is `none` / the empty string; the `.get(..., default)` defaults are
applied at each use site exactly as in the source. -/
structure EventData where
  actor : Option String := none
  location : Option String := none
  message : PyStr := []
  description : PyStr := []
  action : PyStr := []
  origin : Option String := none
  destination : Option String := none
  via : Option PyStr := none
  observer_locations : List (String × String) := []
  origin_description : Option PyStr := none
  destination_description : Option PyStr := none
deriving Repr, DecidableEq

/-- The anchored pattern `^\[[^\]]+\](\s+in\s+[^:]+):\s+` shared by
`EventBus.create_fingerprint`, `EventBus.publish` and
`gui_utils.clean_event_text`: on a match, return the text after the matched
prefix.  The only regex backtracking (`\s+` against `[^:]+`) is resolved by
the equivalent deterministic condition on the segment before the colon. -/
def matchEventPfx (s : PyStr) : Option PyStr :=
  match s with
  | '[' :: rest =>
    let inner := rest.takeWhile (· ≠ ']')
    let after := rest.dropWhile (· ≠ ']')
    if inner.isEmpty then none
    else
      match after with
      | ']' :: r2 =>
        if (r2.takeWhile Char.isWhitespace).isEmpty then none
        else
          let r3 := r2.dropWhile Char.isWhitespace
          if ("in".data).isPrefixOf r3 then
            let r4 := r3.drop 2
            let seg := r4.takeWhile (· ≠ ':')
            match r4.dropWhile (· ≠ ':') with
            | ':' :: r6 =>
              if 2 ≤ seg.length ∧ (seg.headD ' ').isWhitespace ∧
                  ¬(r6.takeWhile Char.isWhitespace).isEmpty then
                some (r6.dropWhile Char.isWhitespace)
              else none
            | _ => none
          else none
      | _ => none
  | _ => none

/-- Python `re.sub(r'^\[[^\]]+\](\s+in\s+[^:]+):\s+', '', s)`: the pattern is
anchored, so at most one leading occurrence is removed. -/
def cleanNested (s : PyStr) : PyStr := (matchEventPfx s).getD s

namespace EventDispatcher

/-- State of `core/event_dispatcher.EventDispatcher`: the observer registry
(one callback per character; callbacks are modelled by opaque `Nat` ids).
The source also declares a `recent_events` dict, but `dispatch_event` never
reads or writes it, so it is omitted. -/
structure ED where
  observers : List (String × Nat)
deriving Repr, DecidableEq

/-- `EventDispatcher.register`: plain dict assignment (replace semantics). -/
def register (st : ED) (character_name : String) (callback : Nat) : ED :=
  { observers := setVal character_name callback st.observers }

/-- `EventDispatcher.unregister`. -/
def unregister (st : ED) (character_name : String) : ED :=
  { observers := st.observers.filter (fun kv => kv.1 ≠ character_name) }

/-- The dispatcher's error classification:
`is_error = "⚠" in description or "Failed:" in description`. -/
def isError (description : PyStr) : Bool :=
  description.contains '⚠' || PyStr.containsSub ("Failed:".data) description

/-- `event_data.get('actor', 'unknown')`. -/
def actorOf (d : EventData) : String := d.actor.getD "unknown"

/-- The `observers_to_notify` list computed by `dispatch_event`. -/
def notifyList (st : ED) (event_type : String) (d : EventData) : List String :=
  if isError d.description then
    if actorOf d ∈ keys st.observers then [actorOf d] else []
  else if event_type == "shout" then keys st.observers
  else if event_type == "movement" then
    (keys st.observers).filter (fun ch =>
      lookupV ch d.observer_locations == d.origin ||
      lookupV ch d.observer_locations == d.destination)
  else
    (keys st.observers).filter (fun ch =>
      lookupV ch d.observer_locations == some (d.location.getD "unknown"))

/-- `EventDispatcher._format_for_observer`.  The Python function returns
either a string or (on the movement branch with no matching location) `None`;
both falsy results are modelled as the empty string, which is how the caller
tests them. -/
def format_for_observer (event_type : String) (d : EventData) (observer : String) : PyStr :=
  let actor := actorOf d
  let message := d.message
  if PyStr.containsSub ("⚠".data) message ∧ observer ≠ actor then []
  else if PyStr.containsSub ("You say:".data) message ∧ observer ≠ actor then []
  else if event_type == "speech" then
    if observer = actor then []
    else actor.data ++ (" says: \"".data) ++ message ++ ("\"".data)
  else if event_type == "shout" then
    if observer = actor then []
    else actor.data ++ (" shouts from ".data) ++ (d.location.getD "somewhere").data
         ++ (": \"".data) ++ message ++ ("\"".data)
  else if event_type == "emote" then
    if observer = actor then [] else actor.data ++ (" ".data) ++ d.action
  else if event_type == "movement" then
    let origin := d.origin.getD "somewhere"
    let destination := d.destination.getD "somewhere"
    let via := d.via.getD ("moved".data)
    if observer = actor then []
    else if lookupV observer d.observer_locations == some origin then
      actor.data ++ (" ".data) ++ via ++ (" to ".data) ++ destination.data ++ (".".data)
    else if lookupV observer d.observer_locations == some destination then
      actor.data ++ (" ".data) ++ via ++ (" from ".data) ++ origin.data ++ (".".data)
    else []
  else if event_type == "observation" then
    if observer = actor then [] else actor.data ++ (" ".data) ++ d.action
  else if event_type == "command" then
    if observer ≠ actor then [] else d.description
  else
    if PyStr.containsSub ("You say:".data) d.description ∧ observer ≠ actor then []
    else d.description

/-- `EventDispatcher.dispatch_event`: the list of callback invocations
`(observer, callback id, formatted message)` performed, in order.  The
per-observer data copy built by the source (`observer_data`) only tags the
observer's name onto the payload and is not needed by any claim. -/
def dispatch_event (st : ED) (event_type : String) (d : EventData) :
    List (String × Nat × PyStr) :=
  (notifyList st event_type d).filterMap (fun observer =>
    if observer = actorOf d ∧ event_type ∈ ["speech", "shout", "emote"] then none
    else
      let msg := format_for_observer event_type d observer
      if msg.isEmpty then none
      else
        match lookupV observer st.observers with
        | some cb => some (observer, cb, msg)
        | none => none)

end EventDispatcher

namespace EventBus

/-- Dedup fingerprint.  The source hashes the string
`f"{event_type}:{actor}:{clean_description}:{location}:{timestamp}"` with
md5; the hash is modelled as the tuple itself (md5 collisions are idealized
away).  `stamp` is the coarse to-the-second timestamp. -/
structure Fp where
  event_type : String
  actor : String
  clean_desc : PyStr
  location : String
  stamp : Nat
deriving Repr, DecidableEq

/-- State of `core/event_bus.EventBus`.  Each character maps to a *list* of
callbacks (`defaultdict(list)`), unlike the dispatcher's one-callback
registry. -/
structure EB where
  observers : List (String × List Nat)
  recent_events : List (Fp × Nat)
  observer_recent_events : List (String × List (Fp × Nat))
deriving Repr, DecidableEq

/-- A freshly constructed bus. -/
def emptyBus : EB := { observers := [], recent_events := [], observer_recent_events := [] }

/-- `self.event_expiry = 3` seconds, in tenth-of-a-second ticks. -/
def event_expiry : Nat := 30

/-- `EventBus.register`: append the callback to the character's list unless
already present (`if callback not in self.observers[name]`); the
`defaultdict` access creates the entry. -/
def register (st : EB) (character_name : String) (callback : Nat) : EB :=
  let cur := lookupD character_name st.observers []
  { st with observers :=
      setVal character_name (if callback ∈ cur then cur else cur ++ [callback]) st.observers }

/-- `EventBus.create_fingerprint`. -/
def create_fingerprint (event_type : String) (description : PyStr) (d : EventData)
    (now : Nat) : Fp :=
  { event_type := event_type,
    actor := d.actor.getD "unknown",
    clean_desc := cleanNested description,
    location := d.location.getD "unknown",
    stamp := now / 10 }

/-- `EventBus.is_recent_duplicate`. -/
def is_recent_duplicate (recent : List (Fp × Nat)) (fp : Fp) (now : Nat) : Bool :=
  match lookupV fp recent with
  | some ts => decide (now - ts < event_expiry)
  | none => false

/-- `EventBus.cleanup_old_events`. -/
def cleanup_old_events (recent : List (Fp × Nat)) (now : Nat) : List (Fp × Nat) :=
  recent.filter (fun e => now - e.2 < event_expiry)

/-- The expiry-cleaning step inside `EventBus.observer_has_seen_event`. -/
def cleanEntries (entries : List (Fp × Nat)) (now : Nat) : List (Fp × Nat) :=
  entries.filter (fun e => now - e.2 < event_expiry)

/-- The membership test inside `EventBus.observer_has_seen_event` (after
cleaning). -/
def hasSeen (entries : List (Fp × Nat)) (fp : Fp) : Bool :=
  entries.any (fun e => e.1 == fp)

/-- `EventBus.format_for_observer`: first-person rewriting when the observer
is the actor; Python `str.replace` replaces every occurrence. -/
def format_for_observer (observer : String) (description : PyStr) (d : EventData) : PyStr :=
  let actor := d.actor.getD "unknown"
  if observer = actor then
    let d1 := PyStr.replaceAll (actor.data ++ (" ".data)) ("You ".data) description
    let d2 := PyStr.replaceAll (" says:".data) (" say:".data) d1
    let d3 := PyStr.replaceAll (" says".data) (" say".data) d2
    let d4 := PyStr.replaceAll (" goes ".data) (" go ".data) d3
    let d5 := PyStr.replaceAll (" looks ".data) (" look ".data) d4
    PyStr.replaceAll (" examines ".data) (" examine ".data) d5
  else description

/-- Rendering of a possibly-missing string inside a Python f-string
(`None` prints as `"None"`). -/
def optStr (o : Option String) : PyStr :=
  match o with
  | some s => s.data
  | none => "None".data

/-- The notify loop of `EventBus.publish`: per-observer dedup check and
recording, then one callback invocation per registered callback.  Returns
the deliveries and the updated `observer_recent_events` table. -/
def publishLoop (observersTable : List (String × List Nat)) (fp : Fp) (now : Nat)
    (fmt : String → PyStr) :
    List String → List (String × List (Fp × Nat)) →
    List (String × Nat × PyStr) × List (String × List (Fp × Nat))
  | [], ore => ([], ore)
  | ob :: rest, ore =>
    let entries := cleanEntries (lookupD ob ore []) now
    if hasSeen entries fp then
      publishLoop observersTable fp now fmt rest (setVal ob entries ore)
    else
      let ore' := setVal ob (entries ++ [(fp, now)]) ore
      let msg := fmt ob
      let ds := (lookupD ob observersTable []).map (fun cb => (ob, cb, msg))
      let r := publishLoop observersTable fp now fmt rest ore'
      (ds ++ r.1, r.2)

/-- The description-cleaning step at the top of `EventBus.publish`. -/
def prepDesc (event_type : String) (description : PyStr) : PyStr :=
  if (("[".data ++ event_type.data ++ "]".data)).isPrefixOf description ∨
      (PyStr.containsSub ("[".data) description ∧
       PyStr.containsSub ("in".data) description ∧
       PyStr.containsSub (":".data) description) then
    cleanNested description
  else description

/-- The movement-description injection step of `EventBus.publish`. -/
def prepData (event_type : String) (d : EventData) : EventData :=
  if event_type == "movement" then
    let actor := d.actor.getD "Someone"
    let via := d.via.getD ("moved".data)
    { d with
      origin_description :=
        some (actor.data ++ (" ".data) ++ via ++ (" to ".data) ++ optStr d.destination ++ (".".data)),
      destination_description :=
        some (actor.data ++ (" ".data) ++ via ++ (" from ".data) ++ optStr d.origin ++ (".".data)) }
  else d

/-- The `observers_to_notify` list computed by `EventBus.publish` (from the
shout/movement/standard visibility rules). -/
def notifyListB (obs : List (String × List Nat)) (event_type : String) (d : EventData) :
    List String :=
  if event_type == "shout" then keys obs
  else if event_type == "movement" then
    match d.origin, d.destination with
    | some o, some dst =>
      if o ≠ "" ∧ dst ≠ "" then
        (keys obs).filter (fun ob =>
          lookupV ob d.observer_locations == some o ||
          lookupV ob d.observer_locations == some dst)
      else []
    | _, _ => []
  else
    (keys obs).filter (fun ob =>
      lookupV ob d.observer_locations == d.location)

/-- The per-observer rendering of `EventBus.publish`: the location-specific
stored description for movement, the perspective rewrite otherwise. -/
def fmtFor (event_type : String) (description : PyStr) (d : EventData) (ob : String) : PyStr :=
  if event_type == "movement" then
    if lookupV ob d.observer_locations == d.origin then
      (d.origin_description).getD description
    else
      (d.destination_description).getD description
  else format_for_observer ob description d

/-- `EventBus.publish`: returns the callback invocations
`(observer, callback id, formatted description)` in order, and the new bus
state.  The per-observer data copy (`prepare_data_for_observer`) only tags
`is_actor`/`observer` metadata and is not needed by any claim. -/
def publish (st : EB) (event_type : String) (description : PyStr) (d : EventData)
    (now : Nat) : List (String × Nat × PyStr) × EB :=
  let description := prepDesc event_type description
  let d := prepData event_type d
  let fp := create_fingerprint event_type description d now
  if is_recent_duplicate st.recent_events fp now then ([], st)
  else
    let recent := cleanup_old_events (setVal fp now st.recent_events) now
    let r := publishLoop st.observers fp now (fmtFor event_type description d)
      (notifyListB st.observers event_type d) st.observer_recent_events
    (r.1, { st with recent_events := recent, observer_recent_events := r.2 })

end EventBus

namespace EventHandler

/-- The five recognized verbs of the quick check
`any(cmd_lower.startswith(p) for p in ['go to', 'say', 'note', 'recall', 'shout'])`. -/
def verbPfxs : List PyStr :=
  ["go to".data, "say".data, "note".data, "recall".data, "shout".data]

/-- `line.startswith(('*', '#', '-', '>', '"'))`. -/
def skipFmt (line : PyStr) : Bool :=
  match line with
  | [] => false
  | c :: _ => c ∈ ['*', '#', '-', '>', '"']

/-- The quick candidate check in `extract_command_from_buffer`: the lowered
line starts with a recognized verb; the part before an optional `|` reason
separator is the command. -/
def firstCheck (line : PyStr) : Option PyStr :=
  let cmd_lower := PyStr.toLower line
  if verbPfxs.any (fun p => p.isPrefixOf cmd_lower) then
    if '|' ∈ line then some (PyStr.trim (PyStr.splitFirst '|' line).1)
    else some line
  else none

/-- The `command_prefixes` regex table
`[(r'^\s*GO\s+TO\s+', 'go to'), (r'^\s*SAY\s+', 'say'), ...]`. -/
def verbPats : List (List PyStr × PyStr) :=
  [(["go".data, "to".data], "go to".data),
   (["say".data], "say".data),
   (["shout".data], "shout".data),
   (["note".data], "note".data),
   (["recall".data], "recall".data)]

/-- The regex fallback check in `extract_command_from_buffer`: try each
pattern in order; on a match, normalize the command, with the special
`note` title/content handling. -/
def secondCheck : List (List PyStr × PyStr) → PyStr → Option PyStr
  | [], _ => none
  | (toks, pfx) :: rest, line =>
    match PyStr.matchVerbPat toks line with
    | some after =>
      let content := PyStr.trim after
      if pfx == "note".data ∧ ':' ∈ content then
        let tb := PyStr.splitFirst ':' content
        some (pfx ++ (" ".data) ++ PyStr.trim tb.1 ++ (": ".data) ++ PyStr.trim tb.2)
      else some (pfx ++ (" ".data) ++ content)
    | none => secondCheck rest line

/-- The per-line loop of `extract_command_from_buffer` over the processable
lines. -/
def scanLines : List PyStr → Option PyStr
  | [] => none
  | l :: rest =>
    let line := PyStr.trim l
    if line.isEmpty then scanLines rest
    else if skipFmt line || PyStr.containsSub ("command".data) (PyStr.toLower line) then
      scanLines rest
    else
      match firstCheck line with
      | some cmd => some cmd
      | none =>
        match secondCheck verbPats line with
        | some cmd => some cmd
        | none => scanLines rest

/-- `EventHandler.extract_command_from_buffer`.  The side effect of storing a
`|`-reason on the minimind is dropped; only the returned command matters. -/
def extract_command_from_buffer (buffer : PyStr) : Option PyStr :=
  if buffer.isEmpty then none
  else
    let buffer_ends_with_newline := buffer.getLast? == some '\n'
    let contains_newline := '\n' ∈ buffer
    if ¬contains_newline ∧ ¬buffer_ends_with_newline then none
    else
      let lines := PyStr.splitOnChar '\n' buffer
      scanLines (if ¬buffer_ends_with_newline then lines.dropLast else lines)

/-- The callbacks that can be applied to one in-flight turn: a streamed
chunk, stream completion, a transport error, and an explicit cancellation
request (`gui.stop_streaming.set()` + `llm.cancel_streaming()`). -/
inductive Ev where
  | chunk (text : PyStr)
  | complete (full : PyStr)
  | error
  | cancel
deriving Repr, DecidableEq

/-- Streaming-turn state (`EventHandler` fields plus the orchestration flags
it drives).  `resolutions` counts turn-outcome deliveries: invocations of the
command consumer `command_processor.process_minimind_action`, plus the
delivery of a failure outcome by `handle_response_error` (the transition of
the one-shot `turn_completed` event from unset to set; setting an already-set
`threading.Event` delivers nothing to the waiting orchestrator). -/
structure EH where
  complete_response : PyStr
  post_thinking_buffer : PyStr
  thinking_complete : Bool
  command_detected : Bool
  detected_command : Option PyStr
  has_early_stopped : Bool
  turn_in_progress : Bool
  stop_streaming : Bool
  turn_completed : Bool
  resolutions : Nat
deriving Repr, DecidableEq

/-- State right after `execute_minimind_turn` resets the streaming state and
starts the worker. -/
def initState : EH :=
  { complete_response := [], post_thinking_buffer := [],
    thinking_complete := false, command_detected := false,
    detected_command := none, has_early_stopped := false,
    turn_in_progress := true, stop_streaming := false,
    turn_completed := false, resolutions := 0 }

/-- The thinking-delimiter bookkeeping of `handle_response_chunk`: the new
`(thinking_complete, post_thinking_buffer)` pair after appending a chunk.
Searching for `</think>` happens only while the thinking block is open; once
found, the remainder after the 8-character delimiter is stripped and becomes
the scan buffer; afterwards chunks append to the scan buffer. -/
def chunkBuffers (s : EH) (text : PyStr) : Bool × PyStr :=
  if ¬s.thinking_complete then
    match PyStr.findSub ("</think>".data) (s.complete_response ++ text) with
    | some i => (true, PyStr.trim ((s.complete_response ++ text).drop (i + 8)))
    | none => (false, s.post_thinking_buffer)
  else (true, s.post_thinking_buffer ++ text)

/-- One callback applied to the turn.  Callbacks are serialized by
`response_lock`, so each is modelled as an atomic step; continuations the
handlers schedule on the Tk loop (`process_command_safely`,
`safe_process_full_response`, the delayed `stop_streaming.set()`) run after
the handler body and are folded into the same step; `time.sleep` re-checks
re-read unchanged state in this sequential model. -/
def step (s : EH) : Ev → EH
  | .chunk text =>
    -- handle_response_chunk
    if s.command_detected then s
    else
      let tp := chunkBuffers s text
      let s1 := { s with complete_response := s.complete_response ++ text,
                         thinking_complete := tp.1,
                         post_thinking_buffer := tp.2 }
      if tp.1 then
        match extract_command_from_buffer tp.2 with
        | some cmd =>
          -- early stop: request cancellation, then process_command_safely
          -- commits the command to the consumer, which ends the turn and
          -- signals turn_completed.  (clean_event_message only rewrites the
          -- command's presentation and is dropped here.)
          { s1 with command_detected := true, detected_command := some cmd,
                    has_early_stopped := true, stop_streaming := true,
                    resolutions := s1.resolutions + 1,
                    turn_in_progress := false, turn_completed := true }
        | none => s1
      else s1
  | .complete full =>
    -- handle_response_complete
    if s.has_early_stopped then s
    else
      let s1 := { s with complete_response := full }
      if s1.detected_command = none then
        -- safe_process_full_response: the consumer runs only while the turn
        -- is still in progress (and ends it); turn_completed is signalled
        -- either way, and stop_streaming is set after a delay.
        { s1 with
          resolutions := if s1.turn_in_progress then s1.resolutions + 1 else s1.resolutions,
          turn_in_progress := false, turn_completed := true, stop_streaming := true }
      else { s1 with stop_streaming := true }
  | .error =>
    -- handle_response_error: ends the turn and delivers a failure outcome
    -- through the one-shot turn_completed event.
    { s with turn_in_progress := false, stop_streaming := true,
             resolutions := if s.turn_completed then s.resolutions else s.resolutions + 1,
             turn_completed := true }
  | .cancel => { s with stop_streaming := true }

/-- Apply a finite sequence of callbacks to a turn. -/
def runSeq (s : EH) (evs : List Ev) : EH := evs.foldl step s

/-- A chunk or cancellation callback. -/
def isChunkOrCancel : Ev → Bool
  | .chunk _ => true
  | .cancel => true
  | _ => false

/-- A terminal callback of the streaming client (completion or error). -/
def isTerminal : Ev → Bool
  | .complete _ => true
  | .error => true
  | _ => false

/-- The callback sequences the external streaming client can actually
produce for one turn (`llm_interface._stream_response`): chunks in order,
then at most one completion or error, with explicit cancellations anywhere. -/
def ClientSeq (evs : List Ev) : Prop :=
  ∃ pre post, evs = pre ++ post ∧ (∀ e ∈ pre, isChunkOrCancel e = true) ∧
    (post = [] ∨ ∃ t rest, post = t :: rest ∧ isTerminal t = true ∧
      ∀ e ∈ rest, e = Ev.cancel)

end EventHandler

namespace TurnManager

/-- `TurnManager.set_god_mode`. -/
def set_god_mode (st : TM) (enabled : Bool) : TM := { st with god_mode := enabled }

/-- A freshly constructed `TurnManager` (in the default `time_units` mode). -/
def initTM : TM :=
  { time_units := [], turn_history := [], last_turn_time := [],
    player_name := none, god_mode := false, turn_mode := "time_units",
    new_memories_count := [] }

/-- Fixture for the god-mode scheduling bug, reached through the public
operations: register player `P`, register agent `A`, let `P` act once
(capped cost 2, then renormalized, leaving `P` at 1 and `A` at 0), then
enable god mode. -/
def c2st : TM :=
  set_god_mode
    (add_time_units (register_character (register_character initTM "P" true) "A" false) "P" 2)
    true

/-- Fixture for the player anti-starvation counterexample: player `P`
(counter 0) is first in order, agent `A` has counter 5, god mode off. -/
def c3st : TM :=
  { time_units := [("P", 0), ("A", 5)], turn_history := [],
    last_turn_time := [("P", 0), ("A", 0)], player_name := some "P",
    god_mode := false, turn_mode := "time_units",
    new_memories_count := [("P", 0), ("A", 0)] }

/-- Fixture for the anti-starvation theorem's witness: two agents, no
player, `A` first in order. -/
def c3wst : TM :=
  { time_units := [("A", 0), ("B", 1)], turn_history := [],
    last_turn_time := [("A", 0), ("B", 0)], player_name := none,
    god_mode := false, turn_mode := "time_units",
    new_memories_count := [("A", 0), ("B", 0)] }

/-- Fixture for the `pass_turn` counterexample: memories mode, `A` has 5
new memories and is first in order, `B` has 2. -/
def c4st : TM :=
  { time_units := [("A", 0), ("B", 0)], turn_history := [],
    last_turn_time := [("A", 0), ("B", 0)], player_name := none,
    god_mode := false, turn_mode := "memories",
    new_memories_count := [("A", 5), ("B", 2)] }

end TurnManager

namespace EventHandler

/-- A processable line the scan skips: blank after trimming, starting with a
formatting character, or containing `command` case-insensitively. -/
def skipLine (l : PyStr) : Bool :=
  (PyStr.trim l).isEmpty || skipFmt (PyStr.trim l) ||
    PyStr.containsSub ("command".data) (PyStr.toLower (PyStr.trim l))

/-- A processable line the scan detects through the quick check: non-blank,
not skipped, and its lowercase form starts with a recognized verb. -/
def candidateLine (l : PyStr) : Bool :=
  let t := PyStr.trim l
  !t.isEmpty && !skipFmt t &&
    !PyStr.containsSub ("command".data) (PyStr.toLower t) &&
    verbPfxs.any (fun p => p.isPrefixOf (PyStr.toLower t))

/-- The command the quick check commits for a candidate line: the trimmed
line, or the trimmed part before a `|` reason separator. -/
def lineCommand (l : PyStr) : PyStr :=
  let t := PyStr.trim l
  if '|' ∈ t then PyStr.trim (PyStr.splitFirst '|' t).1 else t

/-- Join lines with newline separators. -/
def joinNL : List PyStr → PyStr
  | [] => []
  | [x] => x
  | x :: y :: ys => x ++ '\n' :: joinNL (y :: ys)

/-- The two phases a turn's streaming state can be in under a client-shaped
callback sequence: either nothing has resolved yet (no command detected, the
turn still in progress, completion unsignalled), or the early-stop path has
resolved exactly once. -/
def Inv (s : EH) : Prop :=
  (s.resolutions = 0 ∧ s.command_detected = false ∧ s.detected_command = none ∧
    s.has_early_stopped = false ∧ s.turn_in_progress = true ∧ s.turn_completed = false) ∨
  (s.resolutions = 1 ∧ s.command_detected = true ∧ s.has_early_stopped = true ∧
    s.turn_in_progress = false ∧ s.turn_completed = true)

end EventHandler

namespace EventBus

/-- Structural invariants of the bus registry that hold by construction
(`dict` keys are unique; `register` never appends a duplicate callback). -/
def WF (st : EB) : Prop :=
  (keys st.observers).Nodup ∧ ∀ kv ∈ st.observers, kv.2.Nodup

/-- A bus with the given registry and empty dedup tables (the state of a
fresh bus after registrations only). -/
def mkBus (obs : List (String × List Nat)) : EB :=
  { observers := obs, recent_events := [], observer_recent_events := [] }

/-- Fixture registry for the dedup witness: Alice and Bob each with one
callback. -/
def busC7 : EB := mkBus [("Alice", [1]), ("Bob", [2])]

/-- Fixture event payload for the dedup witness. -/
def evC7 : EventData :=
  { actor := some "Bob", location := some "Kitchen",
    observer_locations := [("Alice", "Kitchen"), ("Bob", "Kitchen")] }

end EventBus

namespace EventDispatcher

/-- Fixture registry: Bob, Alice, Carol. -/
def edC5 : ED := { observers := [("Bob", 0), ("Alice", 1), ("Carol", 2)] }

/-- Speech event whose message carries the error marker `⚠` but whose
description does not: the location rules still apply, yet per-observer
formatting blanks it for everyone but the actor. -/
def evC5 : EventData :=
  { actor := some "Bob", location := some "Kitchen",
    message := "⚠ hi".data, description := "Bob speaks".data,
    observer_locations := [("Bob", "Kitchen"), ("Alice", "Kitchen"), ("Carol", "Kitchen")] }

/-- Observation event at the Kitchen with Bob acting, Alice in the Kitchen
and Carol in the Garden (spec example scenario 3). -/
def evC5w : EventData :=
  { actor := some "Bob", location := some "Kitchen",
    action := "looks around".data, description := "Bob looks around".data,
    observer_locations := [("Bob", "Kitchen"), ("Alice", "Kitchen"), ("Carol", "Garden")] }

/-- Error event (description carries `⚠`) from Bob with Alice co-located. -/
def evC6 : EventData :=
  { actor := some "Bob", location := some "Kitchen",
    message := "⚠ no door".data, description := "Bob ⚠ no door".data,
    observer_locations := [("Bob", "Kitchen"), ("Alice", "Kitchen"), ("Carol", "Kitchen")] }

end EventDispatcher

/-! ## Helper lemmas -/

theorem lookupV_setVal_self {κ α : Type} [DecidableEq κ] (k : κ) (v : α)
    (l : List (κ × α)) : lookupV k (setVal k v l) = some v := by
  induction l with
  | nil => simp [setVal, lookupV]
  | cons kv rest ih =>
    obtain ⟨k', v'⟩ := kv
    by_cases h : k' = k
    · simp [setVal, lookupV, h]
    · simp [setVal, lookupV, h, ih]

theorem lookupV_setVal_ne {κ α : Type} [DecidableEq κ] {k k' : κ} (v : α)
    (l : List (κ × α)) (h : k ≠ k') : lookupV k' (setVal k v l) = lookupV k' l := by
  induction l with
  | nil => simp [setVal, lookupV, h]
  | cons kv rest ih =>
    obtain ⟨k0, v0⟩ := kv
    by_cases h0 : k0 = k
    · subst h0
      simp [setVal, lookupV, h]
    · simp [setVal, lookupV, h0, ih]

theorem setVal_setVal_same {κ α : Type} [DecidableEq κ] (k : κ) (v1 v2 : α)
    (l : List (κ × α)) : setVal k v2 (setVal k v1 l) = setVal k v2 l := by
  induction l with
  | nil => simp [setVal]
  | cons kv rest ih =>
    obtain ⟨k0, v0⟩ := kv
    by_cases h0 : k0 = k
    · simp [setVal, h0]
    · simp [setVal, h0, ih]

theorem lookupV_isSome_of_mem {κ α : Type} [DecidableEq κ] {k : κ} {l : List (κ × α)}
    (h : k ∈ keys l) : ∃ v, lookupV k l = some v := by
  induction l with
  | nil => simp [keys] at h
  | cons kv rest ih =>
    obtain ⟨k0, v0⟩ := kv
    by_cases h0 : k0 = k
    · exact ⟨v0, by simp [lookupV, h0]⟩
    · have : k ∈ keys rest := by
        simp [keys] at h ⊢
        tauto
      obtain ⟨v, hv⟩ := ih this
      exact ⟨v, by simp [lookupV, h0, hv]⟩

theorem lookupV_map_sub {κ : Type} [DecidableEq κ] (k : κ) (m : Int)
    (l : List (κ × Int)) :
    lookupV k (l.map (fun kv => (kv.1, kv.2 - m))) = (lookupV k l).map (fun v => v - m) := by
  induction l with
  | nil => simp [lookupV]
  | cons kv rest ih =>
    obtain ⟨k0, v0⟩ := kv
    by_cases h0 : k0 = k
    · simp [lookupV, h0]
    · simp [lookupV, h0, ih]

theorem setVal_ne_nil {κ α : Type} [DecidableEq κ] (k : κ) (v : α) (l : List (κ × α)) :
    setVal k v l ≠ [] := by
  cases l with
  | nil => simp [setVal]
  | cons kv rest =>
    obtain ⟨k0, v0⟩ := kv
    by_cases h0 : k0 = k <;> simp [setVal, h0]

theorem insertSorted_perm (key : String → Int × Int) (x : String) (l : List String) :
    (TurnManager.insertSorted key x l).Perm (x :: l) := by
  induction l with
  | nil => simp [TurnManager.insertSorted]
  | cons y ys ih =>
    by_cases h : TurnManager.lexLe (key y) (key x) = true
    · have h1 : TurnManager.insertSorted key x (y :: ys)
          = y :: TurnManager.insertSorted key x ys := by
        simp [TurnManager.insertSorted, h]
      rw [h1]
      exact (ih.cons y).trans (List.Perm.swap x y ys)
    · simp [TurnManager.insertSorted, h]

theorem sortByKey_perm_aux (key : String → Int × Int) (l acc : List String) :
    (l.foldl (fun acc x => TurnManager.insertSorted key x acc) acc).Perm (acc ++ l) := by
  induction l generalizing acc with
  | nil => simp
  | cons x xs ih =>
    have h1 : ((x :: xs).foldl (fun acc x => TurnManager.insertSorted key x acc) acc)
        = xs.foldl (fun acc x => TurnManager.insertSorted key x acc)
            (TurnManager.insertSorted key x acc) := by simp
    rw [h1]
    exact (ih _).trans (((insertSorted_perm key x acc).append_right xs).trans List.perm_middle.symm)

theorem sortByKey_perm (key : String → Int × Int) (l : List String) :
    (TurnManager.sortByKey key l).Perm l := by
  simpa [TurnManager.sortByKey] using sortByKey_perm_aux key l []

theorem cons_filter_ne_perm {l : List String} {p : String}
    (hnd : l.Nodup) (hm : p ∈ l) : (p :: l.filter (fun x => x != p)).Perm l := by
  induction l with
  | nil => simp at hm
  | cons q qs ih =>
    by_cases hq : q = p
    · subst hq
      have hnotin : q ∉ qs := (List.nodup_cons.mp hnd).1
      have hfq : qs.filter (fun x => x != q) = qs :=
        List.filter_eq_self.mpr (fun a ha => by
          simp only [bne_iff_ne, ne_eq, decide_eq_true_eq]
          exact fun h => hnotin (h ▸ ha))
      simp [List.filter_cons, hfq]
    · have hm' : p ∈ qs := by
        cases hm with
        | head => exact absurd rfl hq
        | tail _ h => exact h
      have hperm := ih (List.nodup_cons.mp hnd).2 hm'
      have e1 : (q :: qs).filter (fun x => x != p) = q :: qs.filter (fun x => x != p) := by
        simp [List.filter_cons, hq]
      rw [e1]
      exact (List.Perm.swap q p _).trans (hperm.cons q)

theorem turn_order_branch_perm (st : TurnManager.TM) (key : String → Int × Int)
    (hnd : (keys st.time_units).Nodup) :
    (if st.god_mode && TurnManager.playerRegistered st then
      match st.player_name with
      | some p =>
        p :: TurnManager.sortByKey key ((keys st.time_units).filter (fun c => c != p))
      | none => TurnManager.sortByKey key (keys st.time_units)
    else TurnManager.sortByKey key (keys st.time_units)).Perm (keys st.time_units) := by
  by_cases hg : (st.god_mode && TurnManager.playerRegistered st) = true
  · simp only [hg, if_true]
    cases hp : st.player_name with
    | none =>
      have : TurnManager.playerRegistered st = false := by
        simp [TurnManager.playerRegistered, hp]
      rw [this] at hg
      simp at hg
    | some p =>
      have hpm : p ∈ keys st.time_units := by
        have h2 := hg
        rw [Bool.and_eq_true] at h2
        have := h2.2
        rw [TurnManager.playerRegistered, hp] at this
        exact of_decide_eq_true this
      exact ((sortByKey_perm key _).cons p).trans (cons_filter_ne_perm hnd hpm)
  · have hg' : (st.god_mode && TurnManager.playerRegistered st) = false := by
      simpa using hg
    simp only [hg', if_false]
    exact sortByKey_perm key _

theorem get_turn_order_perm (st : TurnManager.TM)
    (hnd : (keys st.time_units).Nodup) :
    (TurnManager.get_turn_order st).Perm (keys st.time_units) := by
  unfold TurnManager.get_turn_order TurnManager._get_turn_order_by_memories
    TurnManager._get_turn_order_by_tu
  by_cases hm : (st.turn_mode == "memories") = true
  · simp only [hm, if_true]
    exact turn_order_branch_perm st _ hnd
  · have hm' : (st.turn_mode == "memories") = false := by simpa using hm
    simp only [hm', if_false]
    exact turn_order_branch_perm st _ hnd

/-! ## C2 -/

/-- C2: with god mode enabled and the player registered (a state reached
through the public operations: register `P` as player, register `A`, let `P`
act once, enable god mode), `get_turn_order` pins the player `P` first, but
in TimeUnits mode `get_next_character` returns the minimum-counter actor `A`
instead of the privileged player: `_get_next_character_by_tu` is missing the
god-mode check that both `_get_next_character_by_memories` and
`_get_turn_order_by_tu` perform, so the scheduler's next actor contradicts
its own turn order. -/
theorem C2_privileged_next_actor_bug :
    TurnManager.c2st.god_mode = true ∧
    TurnManager.c2st.player_name = some "P" ∧
    TurnManager.c2st.turn_mode = "time_units" ∧
    TurnManager.get_turn_order TurnManager.c2st = ["P", "A"] ∧
    TurnManager.get_next_character TurnManager.c2st = some "A" := by
  refine ⟨rfl, by decide, rfl, by decide, by decide⟩

/-! ## C3 -/

/-- C3, counterexample: the claim quantifies over every *non-privileged*
actor, but when a non-privileged *player* (god mode off) acts while first in
order, `add_time_units` caps the cost at `min rawCost (max 1 (next - own + 1))`
instead of flooring it, so with counters `P = 0`, `A = 5` and `rawCost = 3`
the player's post-cost counter (3, renormalized to 0) does not exceed the
previously-second actor's (5, renormalized to 2) and `P` remains first in
order. -/
theorem C3_counterexample :
    TurnManager.c3st.player_name = some "P" ∧
    TurnManager.c3st.god_mode = false ∧
    TurnManager.c3st.turn_mode = "time_units" ∧
    TurnManager.get_turn_order TurnManager.c3st = ["P", "A"] ∧
    (TurnManager.add_time_units TurnManager.c3st "P" 3).time_units = [("P", 0), ("A", 2)] ∧
    TurnManager.get_turn_order (TurnManager.add_time_units TurnManager.c3st "P" 3)
      = ["P", "A"] := by
  refine ⟨by decide, rfl, rfl, by decide, by decide, by decide⟩

/-! ## C4 -/

/-- C4, counterexample: in memories (PerceptionCount) mode `pass_turn` never
checks the turn order, so actor `B`, who is *not* first in order (`A` is,
with 5 new memories to `B`'s 2) and is not privileged, still passes
successfully: the claim's `false` verdict for out-of-order passes only holds
in TimeUnits mode. -/
theorem C4_counterexample :
    TurnManager.c4st.god_mode = false ∧
    TurnManager.c4st.turn_mode = "memories" ∧
    TurnManager.get_turn_order TurnManager.c4st = ["A", "B"] ∧
    (TurnManager.pass_turn TurnManager.c4st "B").1 = true := by
  refine ⟨rfl, rfl, by decide, by decide⟩

/-! ## C8 -/

/-- C8, counterexample: the two observer registries disagree.  On the
`EventBus`, registering callback `0` for actor `A` and then callback `1`
leaves *both* callbacks live (`[0, 1]`), which is not the state produced by
registering only callback `1` (`[1]`): the bus appends rather than
replaces. -/
theorem C8_counterexample :
    (EventBus.register (EventBus.register EventBus.emptyBus "A" 0) "A" 1).observers
        = [("A", [0, 1])] ∧
    (EventBus.register EventBus.emptyBus "A" 1).observers = [("A", [1])] ∧
    EventBus.register (EventBus.register EventBus.emptyBus "A" 0) "A" 1
        ≠ EventBus.register EventBus.emptyBus "A" 1 := by
  refine ⟨by decide, by decide, by decide⟩

/-! ## C9 -/

/-- C9, counterexample: the complete line `say the command` begins,
case-insensitively, with the recognized verb `say`, yet
`extract_command_from_buffer` does not detect it: the scan first skips any
line containing the substring `command` (or starting with a formatting
character), so no command is committed for this buffer. -/
theorem C9_counterexample :
    EventHandler.extract_command_from_buffer ("say the command\n".data) = none ∧
    ("say".data).isPrefixOf (PyStr.toLower (PyStr.trim ("say the command".data))) = true := by
  refine ⟨by decide, by decide⟩

/-! ## C1 -/

/-- C1, counterexample: for the callback sequence completion, then a chunk
closing the thinking block, then a chunk streaming the line `say hi`, the
turn outcome is delivered *twice*: `handle_response_complete` commits the
fallback command, and the later chunk still passes the `command_detected`
guard (completion never sets it), detects `say hi`, and
`process_command_safely` commits a second command unconditionally. -/
theorem C1_counterexample :
    (EventHandler.runSeq EventHandler.initState
      [EventHandler.Ev.complete ("x".data),
       EventHandler.Ev.chunk ("</think>\n".data),
       EventHandler.Ev.chunk ("say hi\n".data)]).resolutions = 2 := by decide

/-- C3, amended: in TimeUnits mode, for every registered actor that is
neither the player nor privileged, is first in the turn order, and has at
least one actor behind it, `add_time_units` floors the applied cost at
`nextCounter - ownCounter + 1`, so afterwards the actor's counter strictly
exceeds that of the previously-second actor (renormalization subtracts the
same amount from both).  The original claim's "every non-privileged actor"
fails for the player, whose cost is capped instead (see the
counterexample). -/
theorem C3_amended (st : TurnManager.TM) (c d : String) (rest : List String)
    (raw tuc tud : Int)
    (hnd : (keys st.time_units).Nodup)
    (_hmode : st.turn_mode = "time_units")
    (hp : st.player_name ≠ some c)
    (horder : TurnManager.get_turn_order st = c :: d :: rest)
    (hc : lookupV c st.time_units = some tuc)
    (hd : lookupV d st.time_units = some tud) :
    ∃ vc vd, lookupV c (TurnManager.add_time_units st c raw).time_units = some vc ∧
      lookupV d (TurnManager.add_time_units st c raw).time_units = some vd ∧ vd < vc := by
  have hperm := get_turn_order_perm st hnd
  rw [horder] at hperm
  have hnd2 : (c :: d :: rest).Nodup := (hperm.nodup_iff).mpr hnd
  have hcd : c ≠ d := by
    have hni : c ∉ d :: rest := (List.nodup_cons.mp hnd2).1
    exact fun h => hni (h ▸ List.mem_cons_self d rest)
  have hpb : (st.player_name == some c) = false := by
    simpa using hp
  have heff : TurnManager.effective_cost st c tuc raw = max raw (tud - tuc + 1) := by
    unfold TurnManager.effective_cost
    rw [horder]
    simp only [hpb, Bool.false_eq_true, if_false]
    have hmem : c ∈ c :: d :: rest := List.mem_cons_self c _
    rw [if_pos hmem]
    have hidx : (c :: d :: rest).indexOf c = 0 := List.indexOf_cons_self c (d :: rest)
    rw [hidx]
    have hcond : (1 < (c :: d :: rest).length ∧ ((0 : Nat) : Int) = 0) := by
      constructor
      · simp
      · simp
    rw [if_pos hcond]
    simp only [List.drop_succ_cons, List.drop_zero, List.headD_cons]
    unfold lookupD
    rw [hd]
    rfl
  have hgod : (st.god_mode && (st.player_name == some c)) = false := by simp [hpb]
  unfold TurnManager.add_time_units
  rw [hc]
  simp only [hgod, Bool.false_eq_true, if_false]
  have hlc : lookupV c (setVal c (tuc + TurnManager.effective_cost st c tuc raw) st.time_units)
      = some (tuc + TurnManager.effective_cost st c tuc raw) := lookupV_setVal_self _ _ _
  have hld : lookupV d (setVal c (tuc + TurnManager.effective_cost st c tuc raw) st.time_units)
      = some tud := by
    rw [lookupV_setVal_ne _ _ hcd]
    exact hd
  have hlt : tud < tuc + TurnManager.effective_cost st c tuc raw := by
    rw [heff]
    have := le_max_right raw (tud - tuc + 1)
    omega
  show ∃ vc vd,
      lookupV c (TurnManager.normalize_tu
        (setVal c (tuc + TurnManager.effective_cost st c tuc raw) st.time_units)) = some vc ∧
      lookupV d (TurnManager.normalize_tu
        (setVal c (tuc + TurnManager.effective_cost st c tuc raw) st.time_units)) = some vd ∧
      vd < vc
  set l' := setVal c (tuc + TurnManager.effective_cost st c tuc raw) st.time_units with hl'
  unfold TurnManager.normalize_tu
  have hne : l'.isEmpty = false := by
    rcases hq : l' with _ | ⟨x, xs⟩
    · exact absurd hq (setVal_ne_nil _ _ _)
    · rfl
  rw [hne]
  simp only [Bool.false_eq_true, if_false]
  by_cases h0 : 0 < TurnManager.minD (valuesOf l')
  · rw [if_pos h0]
    refine ⟨tuc + TurnManager.effective_cost st c tuc raw - TurnManager.minD (valuesOf l'),
      tud - TurnManager.minD (valuesOf l'), ?_, ?_, by omega⟩
    · rw [lookupV_map_sub, hlc]
      rfl
    · rw [lookupV_map_sub, hld]
      rfl
  · rw [if_neg h0]
    exact ⟨_, _, hlc, hld, hlt⟩

/-- C3, witness: two agents `A` (counter 0, first in order) and `B`
(counter 1), no player; after `A` acts with raw cost 1 the effective cost is
floored to 2, leaving `A` at 1 and `B` at 0 after renormalization. -/
theorem C3_amended_witness :
    ∃ vc vd,
      lookupV "A" (TurnManager.add_time_units TurnManager.c3wst "A" 1).time_units = some vc ∧
      lookupV "B" (TurnManager.add_time_units TurnManager.c3wst "A" 1).time_units = some vd ∧
      vd < vc :=
  C3_amended TurnManager.c3wst "A" "B" [] 1 0 1 (by decide) rfl (by decide)
    (by decide) (by decide) (by decide)

/-- C4, amended: `pass_turn` returns `true` iff the actor is not the
god-mode player, is registered, at least two actors are registered, and —
only in TimeUnits mode — the actor is first in the turn order; in memories
(PerceptionCount) mode any such actor may pass regardless of turn order
(the code never consults the order there, contrary to the claim).  Every
`false` return leaves the whole scheduler state (in particular the actor's
counters) unchanged. -/
theorem C4_amended (st : TurnManager.TM) (c : String) :
    ((TurnManager.pass_turn st c).1 = true ↔
      (¬(st.god_mode = true ∧ st.player_name = some c) ∧ c ∈ keys st.time_units ∧
       1 < st.time_units.length ∧
       (st.turn_mode = "memories" ∨ (TurnManager.get_turn_order st).head? = some c))) ∧
    ((TurnManager.pass_turn st c).1 = false → (TurnManager.pass_turn st c).2 = st) := by
  unfold TurnManager.pass_turn
  by_cases hg : (st.god_mode && (st.player_name == some c)) = true
  · rw [Bool.and_eq_true] at hg
    obtain ⟨hg1, hg2⟩ := hg
    rw [beq_iff_eq] at hg2
    simp [hg1, hg2]
  · have hg' : (st.god_mode && (st.player_name == some c)) = false := by simpa using hg
    have hng : ¬(st.god_mode = true ∧ st.player_name = some c) := by
      rintro ⟨h1, h2⟩
      rw [h1, h2] at hg'
      simp at hg'
    simp only [hg', Bool.false_eq_true, if_false]
    by_cases hreg : c ∈ keys st.time_units ∧ 1 < st.time_units.length
    · rw [if_pos hreg]
      by_cases hm : (st.turn_mode == "memories") = true
      · rw [beq_iff_eq] at hm
        simp [hm, hng, hreg.1, hreg.2]
      · have hm' : st.turn_mode ≠ "memories" := by simpa using hm
        have hmb : (st.turn_mode == "memories") = false := by simpa using hm
        simp only [hmb, Bool.false_eq_true, if_false]
        by_cases hh : (TurnManager.get_turn_order st).head? ≠ some c
        · rw [if_pos hh]
          simp [hm', hh]
        · rw [if_neg hh]
          push_neg at hh
          simp [hng, hreg.1, hreg.2, hh]
    · rw [if_neg hreg]
      simp only [not_and] at hreg
      constructor
      · simp only [Bool.false_eq_true, false_iff]
        rintro ⟨_, h2, h3, _⟩
        exact hreg h2 h3
      · intro _
        rfl

/-- C4, witness: in the memories-mode fixture, `B` (not first in order)
passes successfully, via the amended characterization. -/
theorem C4_amended_witness : (TurnManager.pass_turn TurnManager.c4st "B").1 = true :=
  (C4_amended TurnManager.c4st "B").1.mpr (by decide)

/-- C10: `add_time_units` never branches on the turn mode: in memories
(PerceptionCount) mode, for a registered, non-privileged actor it still adds
the effective cost (computed by the very same `effective_cost` formula used
in TimeUnits mode, relative to the current turn order) to the actor's
time-unit counter and renormalizes the whole table, in addition to resetting
the actor's perception counter to 0 — so costs accrued in memories mode
carry over to TimeUnits mode. -/
theorem C10_memories_mode_mutation (st : TurnManager.TM) (c : String) (raw tuc : Int)
    (_hmode : st.turn_mode = "memories")
    (hng : ¬(st.god_mode = true ∧ st.player_name = some c))
    (hc : lookupV c st.time_units = some tuc) :
    (TurnManager.add_time_units st c raw).time_units
      = TurnManager.normalize_tu
          (setVal c (tuc + TurnManager.effective_cost st c tuc raw) st.time_units) ∧
    lookupV c (TurnManager.add_time_units st c raw).new_memories_count = some 0 := by
  have hgod : (st.god_mode && (st.player_name == some c)) = false := by
    rcases Bool.eq_false_or_eq_true st.god_mode with h | h
    · have hp : st.player_name ≠ some c := fun hp => hng ⟨h, hp⟩
      simp [h, hp]
    · simp [h]
  unfold TurnManager.add_time_units
  rw [hc]
  simp only [hgod, Bool.false_eq_true, if_false]
  constructor
  · trivial
  · exact lookupV_setVal_self c 0 _

/-- C10, witness: in the memories-mode fixture, `A` (5 pending perceptions,
counter 0) acts with raw cost 2; its TU table is mutated exactly as the
shared cost formula dictates, and its perception counter resets to 0. -/
theorem C10_witness :
    (TurnManager.add_time_units TurnManager.c4st "A" 2).time_units
      = TurnManager.normalize_tu
          (setVal "A" ((0 : Int) + TurnManager.effective_cost TurnManager.c4st "A" 0 2)
            TurnManager.c4st.time_units) ∧
    lookupV "A" (TurnManager.add_time_units TurnManager.c4st "A" 2).new_memories_count
      = some 0 :=
  C10_memories_mode_mutation TurnManager.c4st "A" 2 0 rfl (by decide) (by decide)

/-- Inversion for the dispatcher's per-observer delivery function: when a
delivery is produced for observer `o`, its first component is `o`. -/
theorem dispatchF_shape (st : EventDispatcher.ED) (etype : String) (d : EventData)
    (o : String) (x : String × Nat × PyStr)
    (hf : (if o = EventDispatcher.actorOf d ∧ etype ∈ ["speech", "shout", "emote"] then none
      else
        let msg := EventDispatcher.format_for_observer etype d o
        if msg.isEmpty then none
        else
          match lookupV o st.observers with
          | some cb => some (o, cb, msg)
          | none => none) = some x) : x.1 = o := by
  by_cases h1 : (o = EventDispatcher.actorOf d ∧ etype ∈ ["speech", "shout", "emote"])
  · rw [if_pos h1] at hf
    exact absurd hf (by simp)
  · rw [if_neg h1] at hf
    have hf' : (if (EventDispatcher.format_for_observer etype d o).isEmpty then none
        else
          match lookupV o st.observers with
          | some cb => some (o, cb, EventDispatcher.format_for_observer etype d o)
          | none => none) = some x := hf
    by_cases h2 : (EventDispatcher.format_for_observer etype d o).isEmpty = true
    · rw [if_pos h2] at hf'
      exact absurd hf' (by simp)
    · rw [if_neg h2] at hf'
      rcases hlk : lookupV o st.observers with _ | cb
      · rw [hlk] at hf'
        exact absurd hf' (by simp)
      · rw [hlk] at hf'
        have := Option.some.inj hf'
        rw [← this]

/-! ## C5 -/

/-- C5, amended: for every published Speech, Shout, Emote, or Observation
event, the acting actor's own callback is never invoked (Speech/Shout/Emote
are skipped explicitly, Observation renders empty for the actor and empty
messages are dropped); every *other* recipient in the computed set receives
the event provided the dispatcher does not classify it as an error and the
per-observer formatter does not blank it (which happens exactly when the
message contains `⚠` or `You say:` — the case the counterexample
exhibits, which the original claim's "all other recipients do receive it"
overlooks). -/
theorem C5_amended (st : EventDispatcher.ED) (etype : String) (d : EventData)
    (hty : etype ∈ ["speech", "shout", "emote", "observation"]) :
    (∀ x ∈ EventDispatcher.dispatch_event st etype d, x.1 ≠ EventDispatcher.actorOf d) ∧
    (EventDispatcher.isError d.description = false →
     PyStr.containsSub ("⚠".data) d.message = false →
     PyStr.containsSub ("You say:".data) d.message = false →
     ∀ o ∈ EventDispatcher.notifyList st etype d, o ≠ EventDispatcher.actorOf d →
       ∃ cb msg, (o, cb, msg) ∈ EventDispatcher.dispatch_event st etype d) := by
  simp only [List.mem_cons, List.mem_singleton, List.not_mem_nil, or_false] at hty
  constructor
  · intro x hx
    unfold EventDispatcher.dispatch_event at hx
    rw [List.mem_filterMap] at hx
    obtain ⟨o, ho, hf⟩ := hx
    intro hxa
    have hxo : x.1 = o := dispatchF_shape st etype d o x hf
    rw [hxo] at hxa
    subst hxa
    rcases hty with h | h | h | h
    · subst h
      simp at hf
    · subst h
      simp at hf
    · subst h
      simp at hf
    · subst h
      simp [EventDispatcher.format_for_observer] at hf
  · intro herr hw hys o ho hoa
    have hok : o ∈ keys st.observers := by
      unfold EventDispatcher.notifyList at ho
      rw [herr] at ho
      simp only [Bool.false_eq_true, if_false] at ho
      split_ifs at ho
      · exact ho
      · exact (List.mem_filter.mp ho).1
      · exact (List.mem_filter.mp ho).1
    obtain ⟨cb, hcb⟩ := lookupV_isSome_of_mem hok
    refine ⟨cb, EventDispatcher.format_for_observer etype d o, ?_⟩
    unfold EventDispatcher.dispatch_event
    rw [List.mem_filterMap]
    refine ⟨o, ho, ?_⟩
    have hcond : ¬(o = EventDispatcher.actorOf d ∧ etype ∈ ["speech", "shout", "emote"]) := by
      rintro ⟨h1, _⟩
      exact hoa h1
    rw [if_neg hcond]
    have hmsg : (EventDispatcher.format_for_observer etype d o).isEmpty = false := by
      rcases hty with h | h | h | h <;> subst h <;>
        simp [EventDispatcher.format_for_observer, hw, hys, hoa, List.append_eq_nil]
    simp only [hmsg, Bool.false_eq_true, if_false, hcb]

/-- C5, counterexample: a Speech event whose message contains `⚠` (but whose
description does not, so it is not classified as an error): Alice and Carol
are co-located recipients in the computed set, yet the dispatch delivers to
nobody — the original claim's "all other recipients in the set do receive
it" is false. -/
theorem C5_counterexample :
    EventDispatcher.notifyList EventDispatcher.edC5 "speech" EventDispatcher.evC5
      = ["Bob", "Alice", "Carol"] ∧
    EventDispatcher.dispatch_event EventDispatcher.edC5 "speech" EventDispatcher.evC5
      = [] := by
  refine ⟨by decide, by decide⟩

/-- C5, witness (spec example scenario 3): an Observation at the Kitchen by
Bob, with Alice in the Kitchen and Carol in the Garden — Bob's own callback
never fires, and Alice (a non-actor recipient in the set) does receive it. -/
theorem C5_amended_witness :
    (∀ x ∈ EventDispatcher.dispatch_event EventDispatcher.edC5 "observation"
        EventDispatcher.evC5w, x.1 ≠ "Bob") ∧
    (∃ cb msg, ("Alice", cb, msg) ∈ EventDispatcher.dispatch_event EventDispatcher.edC5
        "observation" EventDispatcher.evC5w) := by
  have h := C5_amended EventDispatcher.edC5 "observation" EventDispatcher.evC5w (by decide)
  constructor
  · intro x hx
    exact h.1 x hx
  · exact h.2 (by decide) (by decide) (by decide) "Alice" (by decide) (by decide)

/-! ## C6 -/

/-- C6: for every event the dispatcher classifies as an error (its
description carries `⚠` or `Failed:`, which is how every error publication
in this repository is marked), the computed recipient set is exactly the
acting actor when registered (empty otherwise), and no callback of any
other actor is ever invoked, overriding the location/shout rules. -/
theorem C6_error_only_actor (st : EventDispatcher.ED) (etype : String) (d : EventData)
    (herr : EventDispatcher.isError d.description = true) :
    EventDispatcher.notifyList st etype d
      = (if EventDispatcher.actorOf d ∈ keys st.observers
         then [EventDispatcher.actorOf d] else []) ∧
    ∀ x ∈ EventDispatcher.dispatch_event st etype d, x.1 = EventDispatcher.actorOf d := by
  constructor
  · unfold EventDispatcher.notifyList
    rw [herr]
    simp
  · intro x hx
    unfold EventDispatcher.dispatch_event at hx
    rw [List.mem_filterMap] at hx
    obtain ⟨o, ho, hf⟩ := hx
    have hxo := dispatchF_shape st etype d o x hf
    unfold EventDispatcher.notifyList at ho
    rw [herr] at ho
    simp only [if_true] at ho
    split_ifs at ho
    · simp only [List.mem_singleton] at ho
      rw [hxo, ho]
    · simp at ho

/-- C6, witness: a failed-command event from Bob (description carries `⚠`)
with Alice and Carol co-located: the recipient set is exactly `["Bob"]` and
every delivery goes to Bob. -/
theorem C6_witness :
    EventDispatcher.notifyList EventDispatcher.edC5 "speech" EventDispatcher.evC6
      = ["Bob"] ∧
    ∀ x ∈ EventDispatcher.dispatch_event EventDispatcher.edC5 "speech" EventDispatcher.evC6,
      x.1 = "Bob" := by
  have h := C6_error_only_actor EventDispatcher.edC5 "speech" EventDispatcher.evC6 (by decide)
  exact ⟨by decide, h.2⟩
/-- The freshly started turn is in the unresolved phase. -/
theorem C1_inv_init : EventHandler.Inv EventHandler.initState :=
  Or.inl ⟨rfl, rfl, rfl, rfl, rfl, rfl⟩

/-- A chunk callback preserves the phase invariant: before detection it only
grows buffers; the detection transition delivers the single early-stop
resolution; after detection the `command_detected` guard makes it a no-op. -/
theorem C1_inv_chunk (s : EventHandler.EH) (t : PyStr) (h : EventHandler.Inv s) :
    EventHandler.Inv (EventHandler.step s (EventHandler.Ev.chunk t)) := by
  rcases h with hl | hr
  · obtain ⟨h1, h2, h3, h4, h5, h6⟩ := hl
    simp only [EventHandler.step, h2, Bool.false_eq_true, if_false]
    by_cases htp : (EventHandler.chunkBuffers s t).1 = true
    · simp only [htp, if_true]
      rcases hdet : EventHandler.extract_command_from_buffer (EventHandler.chunkBuffers s t).2
        with _ | cmd
      · exact Or.inl ⟨h1, rfl, h3, h4, h5, h6⟩
      · exact Or.inr ⟨by simp [h1], rfl, rfl, rfl, rfl⟩
    · rw [Bool.not_eq_true] at htp
      simp only [htp, Bool.false_eq_true, if_false]
      exact Or.inl ⟨h1, rfl, h3, h4, h5, h6⟩
  · simp only [EventHandler.step, hr.2.1, if_true]
    exact Or.inr hr

/-- An explicit cancellation only sets `stop_streaming`. -/
theorem C1_inv_cancel (s : EventHandler.EH) (h : EventHandler.Inv s) :
    EventHandler.Inv (EventHandler.step s EventHandler.Ev.cancel) := by
  rcases h with hl | hr
  · exact Or.inl ⟨hl.1, hl.2.1, hl.2.2.1, hl.2.2.2.1, hl.2.2.2.2.1, hl.2.2.2.2.2⟩
  · exact Or.inr ⟨hr.1, hr.2.1, hr.2.2.1, hr.2.2.2.1, hr.2.2.2.2⟩

/-- From either phase, a completion or error callback leaves the turn with
exactly one delivered outcome: completion commits the fallback command when
nothing has resolved and is a no-op after early-stop; error delivers the
failure outcome through the one-shot event only if it is not already set. -/
theorem C1_terminal (s : EventHandler.EH) (e : EventHandler.Ev)
    (h : EventHandler.Inv s) (ht : EventHandler.isTerminal e = true) :
    (EventHandler.step s e).resolutions = 1 := by
  cases e with
  | chunk t => simp [EventHandler.isTerminal] at ht
  | cancel => simp [EventHandler.isTerminal] at ht
  | complete full =>
    rcases h with hl | hr
    · obtain ⟨h1, h2, h3, h4, h5, h6⟩ := hl
      simp [EventHandler.step, h4, h3, h5, h1]
    · simp [EventHandler.step, hr.2.2.1, hr.1]
  | error =>
    rcases h with hl | hr
    · obtain ⟨h1, h2, h3, h4, h5, h6⟩ := hl
      simp [EventHandler.step, h6, h1]
    · simp [EventHandler.step, hr.2.2.2.2, hr.1]

/-- Trailing cancellations never change the number of delivered outcomes. -/
theorem C1_cancels_fix (l : List EventHandler.Ev)
    (hall : ∀ e ∈ l, e = EventHandler.Ev.cancel) :
    ∀ s : EventHandler.EH, (EventHandler.runSeq s l).resolutions = s.resolutions := by
  induction l with
  | nil => intro s; rfl
  | cons x xs ih =>
    intro s
    have hx : x = EventHandler.Ev.cancel := hall x (List.mem_cons_self x xs)
    subst hx
    have h0 : EventHandler.runSeq s (EventHandler.Ev.cancel :: xs)
        = EventHandler.runSeq (EventHandler.step s EventHandler.Ev.cancel) xs := rfl
    rw [h0, ih (fun e he => hall e (List.mem_cons_of_mem _ he))]
    rfl

/-- The phase invariant holds after any run of chunk/cancel callbacks. -/
theorem C1_pre_inv (l : List EventHandler.Ev)
    (hall : ∀ e ∈ l, EventHandler.isChunkOrCancel e = true) :
    ∀ s : EventHandler.EH, EventHandler.Inv s →
      EventHandler.Inv (EventHandler.runSeq s l) := by
  induction l with
  | nil => intro s hs; exact hs
  | cons x xs ih =>
    intro s hs
    have hx := hall x (List.mem_cons_self x xs)
    have hstep : EventHandler.Inv (EventHandler.step s x) := by
      cases x with
      | chunk t => exact C1_inv_chunk s t hs
      | cancel => exact C1_inv_cancel s hs
      | complete full => simp [EventHandler.isChunkOrCancel] at hx
      | error => simp [EventHandler.isChunkOrCancel] at hx
    exact ih (fun e he => hall e (List.mem_cons_of_mem _ he)) _ hstep

/-- C1, amended: for every callback sequence the streaming client can
actually produce for one turn (chunks and cancellations first, then at most
one completion or error, then only cancellations), the turn outcome is
delivered at most once, exactly once as soon as a completion or error has
fired, and a completion arriving after early-stop detection is a strict
no-op on the whole state.  (The unrestricted claim is refuted by the
counterexample: a command-bearing chunk arriving after a completion has
resolved delivers a second outcome.) -/
theorem C1_amended :
    (∀ evs, EventHandler.ClientSeq evs →
      (EventHandler.runSeq EventHandler.initState evs).resolutions ≤ 1) ∧
    (∀ evs, EventHandler.ClientSeq evs →
      (∃ e ∈ evs, EventHandler.isTerminal e = true) →
      (EventHandler.runSeq EventHandler.initState evs).resolutions = 1) ∧
    (∀ (s : EventHandler.EH) (full : PyStr), s.has_early_stopped = true →
      EventHandler.step s (EventHandler.Ev.complete full) = s) := by
  have key : ∀ evs, EventHandler.ClientSeq evs →
      ((EventHandler.runSeq EventHandler.initState evs).resolutions ≤ 1 ∧
       ((∃ e ∈ evs, EventHandler.isTerminal e = true) →
        (EventHandler.runSeq EventHandler.initState evs).resolutions = 1)) := by
    intro evs hseq
    obtain ⟨pre, post, heq, hpre, hpost⟩ := hseq
    subst heq
    have hsplit : EventHandler.runSeq EventHandler.initState (pre ++ post)
        = EventHandler.runSeq (EventHandler.runSeq EventHandler.initState pre) post := by
      simp [EventHandler.runSeq, List.foldl_append]
    have hmid : EventHandler.Inv (EventHandler.runSeq EventHandler.initState pre) :=
      C1_pre_inv pre hpre _ C1_inv_init
    rcases hpost with hnil | ⟨tm, rest, hp, htm, hrest⟩
    · subst hnil
      rw [hsplit]
      constructor
      · rcases hmid with hl | hr
        · have h1 := hl.1
          simp only [EventHandler.runSeq, List.foldl_nil] at h1 ⊢
          omega
        · have h1 := hr.1
          simp only [EventHandler.runSeq, List.foldl_nil] at h1 ⊢
          omega
      · rintro ⟨e, he, hterm⟩
        rw [List.append_nil] at he
        have := hpre e he
        cases e <;> simp_all [EventHandler.isChunkOrCancel, EventHandler.isTerminal]
    · subst hp
      rw [hsplit]
      have hres : (EventHandler.runSeq
          (EventHandler.runSeq EventHandler.initState pre) (tm :: rest)).resolutions = 1 := by
        have h1 : EventHandler.runSeq (EventHandler.runSeq EventHandler.initState pre)
            (tm :: rest) = EventHandler.runSeq
              (EventHandler.step (EventHandler.runSeq EventHandler.initState pre) tm) rest := rfl
        rw [h1, C1_cancels_fix rest hrest]
        exact C1_terminal _ tm hmid htm
      exact ⟨by omega, fun _ => hres⟩
  refine ⟨fun evs h => (key evs h).1, fun evs h ht => (key evs h).2 ht, ?_⟩
  intro s full h
  simp [EventHandler.step, h]

/-- C1, witness: a thinking-closing chunk, a chunk with the line `SAY hi`
(which resolves by early stop), then the completion callback (a no-op):
exactly one outcome is delivered. -/
theorem C1_amended_witness :
    (EventHandler.runSeq EventHandler.initState
      [EventHandler.Ev.chunk ("</think>\n".data),
       EventHandler.Ev.chunk ("SAY hi\n".data),
       EventHandler.Ev.complete ("x".data)]).resolutions = 1 :=
  C1_amended.2.1 _
    ⟨[EventHandler.Ev.chunk ("</think>\n".data), EventHandler.Ev.chunk ("SAY hi\n".data)],
     [EventHandler.Ev.complete ("x".data)], rfl, by decide,
     Or.inr ⟨EventHandler.Ev.complete ("x".data), [], rfl, rfl, by simp⟩⟩
    ⟨EventHandler.Ev.complete ("x".data), by simp, rfl⟩
/-- Python `split` never returns an empty list of parts. -/
theorem splitOnChar_ne_nil (c : Char) (l : PyStr) : PyStr.splitOnChar c l ≠ [] := by
  induction l with
  | nil => simp [PyStr.splitOnChar]
  | cons x xs ih =>
    simp only [PyStr.splitOnChar]
    by_cases hx : x = c
    · simp [hx]
    · simp only [if_neg hx]
      cases hsp : PyStr.splitOnChar c xs with
      | nil => simp
      | cons y ys => simp

/-- Splitting around an occurrence of the separator splits the two sides
independently. -/
theorem splitOnChar_append (c : Char) (xs ys : PyStr) :
    PyStr.splitOnChar c (xs ++ c :: ys)
      = PyStr.splitOnChar c xs ++ PyStr.splitOnChar c ys := by
  induction xs with
  | nil => simp [PyStr.splitOnChar]
  | cons x xs ih =>
    by_cases hx : x = c
    · subst hx
      simp [PyStr.splitOnChar, ih]
    · simp only [List.cons_append, PyStr.splitOnChar, if_neg hx, List.append_eq]
      rw [ih]
      cases hsp : PyStr.splitOnChar c xs with
      | nil => exact absurd hsp (splitOnChar_ne_nil c xs)
      | cons y ys2 => simp

/-- A string without the separator splits into itself. -/
theorem splitOnChar_no_sep (c : Char) (l : PyStr) (h : c ∉ l) :
    PyStr.splitOnChar c l = [l] := by
  induction l with
  | nil => rfl
  | cons x xs ih =>
    have hx : x ≠ c := fun he => h (he ▸ List.mem_cons_self x xs)
    have hxs : c ∉ xs := fun hm => h (List.mem_cons_of_mem _ hm)
    simp only [PyStr.splitOnChar, if_neg hx, ih hxs]

/-- The line scan short-circuits: scanning a concatenation scans the first
part and falls through to the second only when nothing was found. -/
theorem scanLines_append (l1 l2 : List PyStr) :
    EventHandler.scanLines (l1 ++ l2)
      = match EventHandler.scanLines l1 with
        | some r => some r
        | none => EventHandler.scanLines l2 := by
  induction l1 with
  | nil => simp [EventHandler.scanLines]
  | cons l rest ih =>
    rw [List.cons_append]
    simp only [EventHandler.scanLines]
    by_cases h1 : (PyStr.trim l).isEmpty = true
    · rw [if_pos h1, if_pos h1, ih]
    · rw [if_neg h1, if_neg h1]
      by_cases h2 : (EventHandler.skipFmt (PyStr.trim l)
          || PyStr.containsSub ("command".data) (PyStr.toLower (PyStr.trim l))) = true
      · rw [if_pos h2, if_pos h2, ih]
      · rw [if_neg h2, if_neg h2]
        cases EventHandler.firstCheck (PyStr.trim l) with
        | some cmd => simp
        | none =>
          cases EventHandler.secondCheck EventHandler.verbPats (PyStr.trim l) with
          | some cmd => simp
          | none => simp [ih]

/-- A skippable line (blank, formatting, or containing `command`) is passed
over by the scan. -/
theorem scanLines_skip (l : PyStr) (rest : List PyStr)
    (h : EventHandler.skipLine l = true) :
    EventHandler.scanLines (l :: rest) = EventHandler.scanLines rest := by
  unfold EventHandler.skipLine at h
  simp only [EventHandler.scanLines]
  by_cases h1 : (PyStr.trim l).isEmpty = true
  · rw [if_pos h1]
  · rw [if_neg h1]
    rw [Bool.or_assoc] at h
    rcases Bool.or_eq_true_iff.mp h with h' | h'
    · exact absurd h' h1
    · rw [if_pos h']

/-- A candidate line is detected by the quick check, producing its committed
command. -/
theorem scanLines_candidate (l : PyStr) (rest : List PyStr)
    (h : EventHandler.candidateLine l = true) :
    EventHandler.scanLines (l :: rest) = some (EventHandler.lineCommand l) := by
  unfold EventHandler.candidateLine at h
  simp only [Bool.and_eq_true, Bool.not_eq_true'] at h
  obtain ⟨⟨⟨h1, h2⟩, h3⟩, h4⟩ := h
  simp only [EventHandler.scanLines]
  rw [if_neg (by rw [h1]; simp)]
  rw [if_neg (by rw [h2, h3]; simp)]
  unfold EventHandler.firstCheck
  rw [if_pos h4]
  unfold EventHandler.lineCommand
  by_cases hp : '|' ∈ PyStr.trim l
  · rw [if_pos hp, if_pos hp]
  · rw [if_neg hp, if_neg hp]

/-- The last element of a list is a member of it. -/
theorem getLast?_mem_own {α : Type} (l : List α) (x : α) (h : l.getLast? = some x) :
    x ∈ l := by
  induction l with
  | nil => simp at h
  | cons a as ih =>
    cases as with
    | nil =>
      simp at h
      simp [h]
    | cons b bs =>
      rw [List.getLast?_cons_cons] at h
      exact List.mem_cons_of_mem a (ih h)

/-- Splitting on newlines inverts joining newline-free lines. -/
theorem joinNL_split (xs : List PyStr) (hne : xs ≠ [])
    (hnl : ∀ x ∈ xs, '\n' ∉ x) :
    PyStr.splitOnChar '\n' (EventHandler.joinNL xs) = xs := by
  induction xs with
  | nil => exact absurd rfl hne
  | cons x rest ih =>
    cases rest with
    | nil =>
      exact splitOnChar_no_sep '\n' x (hnl x (List.mem_cons_self x []))
    | cons y ys =>
      have hx : '\n' ∉ x := hnl x (List.mem_cons_self x _)
      have hjoin : EventHandler.joinNL (x :: y :: ys)
          = x ++ '\n' :: EventHandler.joinNL (y :: ys) := rfl
      rw [hjoin, splitOnChar_append, splitOnChar_no_sep '\n' x hx]
      rw [ih (by simp) (fun a ha => hnl a (List.mem_cons_of_mem _ ha))]
      rfl

/-- The scan passes over any run of skippable lines. -/
theorem scanLines_skip_all (pre : List PyStr) (rest : List PyStr)
    (h : ∀ x ∈ pre, EventHandler.skipLine x = true) :
    EventHandler.scanLines (pre ++ rest) = EventHandler.scanLines rest := by
  induction pre with
  | nil => rfl
  | cons x xs ih =>
    rw [List.cons_append, scanLines_skip x _ (h x (List.mem_cons_self x xs))]
    exact ih (fun a ha => h a (List.mem_cons_of_mem _ ha))

/-- C9, amended: during streaming, once the thinking block is closed,
command extraction (1) never considers a trailing unterminated partial line
(appending any newline-free partial text to a newline-terminated buffer
leaves the result unchanged), and (2) detects, as the committed command, the
first complete line that after trimming is non-blank, does not start with a
formatting character (`*`, `#`, `-`, `>`, `"`), does not contain the
substring `command` case-insensitively, and begins case-insensitively with a
recognized verb — regardless of anything on later lines.  (The original
claim's "every complete line that begins with a recognized verb is detected"
fails for lines the skip filter passes over; see the counterexample.) -/
theorem C9_amended :
    (∀ b p : PyStr, '\n' ∉ p →
      EventHandler.extract_command_from_buffer (b ++ '\n' :: p)
        = EventHandler.extract_command_from_buffer (b ++ ['\n'])) ∧
    (∀ (pre post : List PyStr) (l : PyStr),
      (∀ x ∈ pre, '\n' ∉ x) → '\n' ∉ l → (∀ x ∈ post, '\n' ∉ x) →
      (∀ x ∈ pre, EventHandler.skipLine x = true) →
      EventHandler.candidateLine l = true →
      EventHandler.extract_command_from_buffer
          (EventHandler.joinNL (pre ++ l :: post) ++ ['\n'])
        = some (EventHandler.lineCommand l)) := by
  have rhsFact : ∀ b : PyStr,
      EventHandler.extract_command_from_buffer (b ++ ['\n'])
        = EventHandler.scanLines (PyStr.splitOnChar '\n' b ++ [[]]) := by
    intro b
    unfold EventHandler.extract_command_from_buffer
    rw [if_neg (by simp)]
    have hlast : (b ++ ['\n']).getLast? = some '\n' := List.getLast?_concat b
    have hends : ((b ++ ['\n']).getLast? == some '\n') = true := by
      rw [hlast]
      simp
    rw [if_neg (by rw [hends]; simp)]
    rw [hends]
    simp only [Bool.not_eq_true, Bool.true_eq_false, if_false]
    have hsp : PyStr.splitOnChar '\n' (b ++ ['\n'])
        = PyStr.splitOnChar '\n' b ++ [[]] := by
      have := splitOnChar_append '\n' b []
      simpa [PyStr.splitOnChar] using this
    rw [hsp]
    simp
  constructor
  · intro b p hp
    cases p with
    | nil => rfl
    | cons q qs =>
      rw [rhsFact b]
      unfold EventHandler.extract_command_from_buffer
      rw [if_neg (by simp)]
      obtain ⟨z, hz⟩ : ∃ z, (q :: qs).getLast? = some z := by
        cases hz : (q :: qs).getLast? with
        | none =>
          rw [List.getLast?_eq_none_iff] at hz
          simp at hz
        | some z => exact ⟨z, rfl⟩
      have hzm : z ∈ q :: qs := getLast?_mem_own _ z hz
      have hzne : z ≠ '\n' := fun he => hp (he ▸ hzm)
      have hlast : (b ++ '\n' :: q :: qs).getLast? = some z := by
        have : b ++ '\n' :: q :: qs = (b ++ ['\n']) ++ (q :: qs) := by simp
        rw [this, List.getLast?_append, hz]
        rfl
      have hends : ((b ++ '\n' :: q :: qs).getLast? == some '\n') = false := by
        rw [hlast]
        simp [hzne]
      have hcont : '\n' ∈ b ++ '\n' :: q :: qs := by simp
      rw [if_neg (by simp [hcont])]
      rw [hends]
      simp only [Bool.false_eq_true, not_false_eq_true, if_true]
      have hsp : PyStr.splitOnChar '\n' (b ++ '\n' :: q :: qs)
          = PyStr.splitOnChar '\n' b ++ [q :: qs] := by
        rw [splitOnChar_append, splitOnChar_no_sep '\n' (q :: qs) hp]
      rw [hsp, List.dropLast_concat]
      have h00 : EventHandler.scanLines [[]] = none := rfl
      rw [scanLines_append, h00]
      cases EventHandler.scanLines (PyStr.splitOnChar '\n' b) <;> rfl
  · intro pre post l hpre hl hpost hskip hcand
    rw [rhsFact]
    have hxs_ne : pre ++ l :: post ≠ [] := by simp
    have hxsnl : ∀ x ∈ pre ++ l :: post, '\n' ∉ x := by
      intro x hx
      rcases List.mem_append.mp hx with h | h
      · exact hpre x h
      · rcases List.mem_cons.mp h with h' | h'
        · exact h' ▸ hl
        · exact hpost x h'
    rw [joinNL_split _ hxs_ne hxsnl]
    have hassoc : (pre ++ l :: post) ++ [([] : PyStr)] = pre ++ (l :: (post ++ [[]])) := by
      simp
    rw [hassoc, scanLines_skip_all pre _ hskip, scanLines_candidate l _ hcand]

/-- C9, witness: buffer `"# plan\nSAY hello\nextra\n"` — the formatting
line is skipped, detection fires on `SAY hello` before the later line is
considered. -/
theorem C9_amended_witness :
    EventHandler.extract_command_from_buffer
        (EventHandler.joinNL (["# plan".data] ++ ("SAY hello".data) :: ["extra".data])
          ++ ['\n'])
      = some (EventHandler.lineCommand ("SAY hello".data)) :=
  C9_amended.2 ["# plan".data] ["extra".data] ("SAY hello".data)
    (by decide) (by decide) (by decide) (by decide) (by decide)

/-- A successful lookup comes from a pair in the list. -/
theorem lookupV_mem {κ α : Type} [DecidableEq κ] {k : κ} {v : α} :
    ∀ {l : List (κ × α)}, lookupV k l = some v → (k, v) ∈ l := by
  intro l
  induction l with
  | nil => intro h; simp [lookupV] at h
  | cons kv rest ih =>
    intro h
    obtain ⟨k0, v0⟩ := kv
    by_cases h0 : k0 = k
    · subst h0
      simp only [lookupV, if_pos rfl] at h
      obtain rfl := Option.some.inj h
      exact List.mem_cons_self _ _
    · simp only [lookupV, if_neg h0] at h
      exact List.mem_cons_of_mem _ (ih h)

/-- In a well-formed registry every callback list is duplicate-free. -/
theorem lookupD_nodup (T : List (String × List Nat))
    (h : ∀ kv ∈ T, kv.2.Nodup) (ob : String) : (lookupD ob T []).Nodup := by
  unfold lookupD
  cases hl : lookupV ob T with
  | none => simp
  | some v =>
    have := lookupV_mem hl
    exact h (ob, v) this

/-- A duplicate-free list contains each callback at most once. -/
theorem countP_eq_nat (cb : Nat) (cbs : List Nat) (h : cbs.Nodup) :
    cbs.countP (fun x => decide (x = cb)) ≤ 1 := by
  induction cbs with
  | nil => simp
  | cons y ys ih =>
    rw [List.countP_cons]
    by_cases hy : y = cb
    · subst hy
      have hni : y ∉ ys := (List.nodup_cons.mp h).1
      have : ys.countP (fun x => decide (x = y)) = 0 := by
        rw [List.countP_eq_zero]
        intro a ha
        simp only [decide_eq_true_eq]
        exact fun he => hni (he ▸ ha)
      simp [this]
    · have := ih (List.nodup_cons.mp h).2
      simp [hy]
      omega

/-- Every delivery produced by the notify loop is addressed to an observer
from the notify list. -/
theorem publishLoop_fst_mem (T : List (String × List Nat)) (fp : EventBus.Fp) (now : Nat)
    (fmt : String → PyStr) :
    ∀ (nl : List String) (ore : List (String × List (EventBus.Fp × Nat)))
      (x : String × Nat × PyStr),
      x ∈ (EventBus.publishLoop T fp now fmt nl ore).1 → x.1 ∈ nl := by
  intro nl
  induction nl with
  | nil => intro ore x hx; simp [EventBus.publishLoop] at hx
  | cons ob rest ih =>
    intro ore x hx
    simp only [EventBus.publishLoop] at hx
    by_cases hseen : EventBus.hasSeen
        (EventBus.cleanEntries (lookupD ob ore []) now) fp = true
    · rw [if_pos hseen] at hx
      exact List.mem_cons_of_mem _ (ih _ x hx)
    · rw [if_neg hseen] at hx
      simp only [List.mem_append] at hx
      rcases hx with hx | hx
      · rw [List.mem_map] at hx
        obtain ⟨cb, _, hcb⟩ := hx
        rw [← hcb]
        exact List.mem_cons_self _ _
      · exact List.mem_cons_of_mem _ (ih _ x hx)

/-- One pass of the notify loop invokes a given observer's given callback at
most once (observers are visited once each; callback lists are
duplicate-free). -/
theorem publishLoop_countP (T : List (String × List Nat)) (fp : EventBus.Fp) (now : Nat)
    (fmt : String → PyStr) (o : String) (cb : Nat)
    (hT : ∀ kv ∈ T, kv.2.Nodup) :
    ∀ (nl : List String) (ore : List (String × List (EventBus.Fp × Nat))),
      nl.Nodup →
      (EventBus.publishLoop T fp now fmt nl ore).1.countP
        (fun x => decide (x.1 = o ∧ x.2.1 = cb)) ≤ 1 := by
  intro nl
  induction nl with
  | nil => intro ore _; simp [EventBus.publishLoop]
  | cons ob rest ih =>
    intro ore hnd
    simp only [EventBus.publishLoop]
    by_cases hseen : EventBus.hasSeen
        (EventBus.cleanEntries (lookupD ob ore []) now) fp = true
    · rw [if_pos hseen]
      exact ih _ (List.nodup_cons.mp hnd).2
    · rw [if_neg hseen]
      rw [List.countP_append]
      by_cases hob : ob = o
      · subst hob
        have hc1 : ((lookupD ob T []).map (fun cb' => (ob, cb', fmt ob))).countP
            (fun x => decide (x.1 = ob ∧ x.2.1 = cb)) ≤ 1 := by
          rw [List.countP_map]
          have hnd2 := lookupD_nodup T hT ob
          have : ((fun x => decide (x.1 = ob ∧ x.2.1 = cb)) ∘
              (fun cb' => (ob, cb', fmt ob))) = (fun cb' => decide (cb' = cb)) := by
            funext cb'
            simp
          rw [this]
          exact countP_eq_nat cb _ hnd2
        have hc2 : (EventBus.publishLoop T fp now fmt rest
            (setVal ob (EventBus.cleanEntries (lookupD ob ore []) now ++ [(fp, now)]) ore)).1.countP
            (fun x => decide (x.1 = ob ∧ x.2.1 = cb)) = 0 := by
          rw [List.countP_eq_zero]
          intro a ha
          have := publishLoop_fst_mem T fp now fmt rest _ a ha
          have hni : ob ∉ rest := (List.nodup_cons.mp hnd).1
          simp only [decide_eq_true_eq]
          rintro ⟨h1, _⟩
          exact hni (h1 ▸ this)
        omega
      · have hc1 : ((lookupD ob T []).map (fun cb' => (ob, cb', fmt ob))).countP
            (fun x => decide (x.1 = o ∧ x.2.1 = cb)) = 0 := by
          rw [List.countP_eq_zero]
          intro a ha
          rw [List.mem_map] at ha
          obtain ⟨cb', _, hcb⟩ := ha
          rw [← hcb]
          simp only [decide_eq_true_eq]
          rintro ⟨h1, _⟩
          exact hob h1
        have hc2 := ih (setVal ob (EventBus.cleanEntries (lookupD ob ore []) now ++ [(fp, now)]) ore)
          (List.nodup_cons.mp hnd).2
        omega

/-- Defaulted lookup after assignment to the same key. -/
theorem lookupD_setVal_self {κ α : Type} [DecidableEq κ] (k : κ) (v : α)
    (l : List (κ × α)) (dflt : α) : lookupD k (setVal k v l) dflt = v := by
  unfold lookupD
  rw [lookupV_setVal_self]
  rfl

/-- Defaulted lookup after assignment to a different key. -/
theorem lookupD_setVal_ne {κ α : Type} [DecidableEq κ] {k k' : κ} (v : α)
    (l : List (κ × α)) (dflt : α) (h : k ≠ k') :
    lookupD k' (setVal k v l) dflt = lookupD k' l dflt := by
  unfold lookupD
  rw [lookupV_setVal_ne _ _ h]

/-- When no observer on the (duplicate-free) notify list has a live dedup
record for the fingerprint, the loop delivers to every callback of every
listed observer, in order. -/
theorem publishLoop_all_unseen (T : List (String × List Nat)) (fp : EventBus.Fp) (now : Nat)
    (fmt : String → PyStr) :
    ∀ (nl : List String) (ore : List (String × List (EventBus.Fp × Nat))),
      nl.Nodup →
      (∀ ob ∈ nl, EventBus.hasSeen (EventBus.cleanEntries (lookupD ob ore []) now) fp = false) →
      (EventBus.publishLoop T fp now fmt nl ore).1
        = (nl.map (fun ob => (lookupD ob T []).map (fun cb => (ob, cb, fmt ob)))).flatten := by
  intro nl
  induction nl with
  | nil => intro ore _ _; rfl
  | cons ob rest ih =>
    intro ore hnd hun
    simp only [EventBus.publishLoop]
    rw [if_neg (by rw [hun ob (List.mem_cons_self ob rest)]; simp)]
    simp only [List.map_cons, List.flatten_cons]
    congr 1
    apply ih _ (List.nodup_cons.mp hnd).2
    intro ob' hob'
    have hne : ob ≠ ob' := by
      intro he
      exact (List.nodup_cons.mp hnd).1 (he ▸ hob')
    rw [lookupD_setVal_ne _ _ _ hne]
    exact hun ob' (List.mem_cons_of_mem _ hob')

/-- The notify loop only ever records the published fingerprint: if all
per-observer dedup entries equal `(fp, now)` beforehand, the same holds
afterwards (cleaning removes entries, recording adds `(fp, now)`). -/
theorem publishLoop_entries (T : List (String × List Nat)) (fp : EventBus.Fp) (now : Nat)
    (fmt : String → PyStr) :
    ∀ (nl : List String) (ore : List (String × List (EventBus.Fp × Nat))),
      (∀ ob e, e ∈ lookupD ob ore [] → e = (fp, now)) →
      ∀ ob e, e ∈ lookupD ob (EventBus.publishLoop T fp now fmt nl ore).2 [] →
        e = (fp, now) := by
  intro nl
  induction nl with
  | nil => intro ore h ob e he; exact h ob e he
  | cons ob0 rest ih =>
    intro ore h ob e he
    simp only [EventBus.publishLoop] at he
    have hstep : ∀ (v : List (EventBus.Fp × Nat)),
        (∀ e', e' ∈ v → e' = (fp, now)) →
        ∀ ob' e', e' ∈ lookupD ob' (setVal ob0 v ore) [] → e' = (fp, now) := by
      intro v hv ob' e' he'
      by_cases hbo : ob0 = ob'
      · subst hbo
        rw [lookupD_setVal_self] at he'
        exact hv e' he'
      · rw [lookupD_setVal_ne _ _ _ hbo] at he'
        exact h ob' e' he'
    have hclean : ∀ e', e' ∈ EventBus.cleanEntries (lookupD ob0 ore []) now →
        e' = (fp, now) := by
      intro e' he'
      exact h ob0 e' (List.mem_of_mem_filter he')
    by_cases hseen : EventBus.hasSeen
        (EventBus.cleanEntries (lookupD ob0 ore []) now) fp = true
    · rw [if_pos hseen] at he
      exact ih _ (hstep _ hclean) ob e he
    · rw [if_neg hseen] at he
      refine ih _ (hstep _ ?_) ob e he
      intro e' he'
      rcases List.mem_append.mp he' with h' | h'
      · exact hclean e' h'
      · simpa using h'

/-- A looked-up entry that survives a filter is still the one found. -/
theorem lookupV_filter_keep {κ α : Type} [DecidableEq κ] {k : κ} {v : α}
    (p : κ × α → Bool) :
    ∀ {l : List (κ × α)}, lookupV k l = some v → p (k, v) = true →
      lookupV k (l.filter p) = some v := by
  intro l
  induction l with
  | nil => intro h _; simp [lookupV] at h
  | cons kv rest ih =>
    intro h hp
    obtain ⟨k0, v0⟩ := kv
    by_cases h0 : k0 = k
    · subst h0
      simp only [lookupV, if_pos rfl] at h
      obtain rfl := Option.some.inj h
      rw [List.filter_cons, if_pos hp]
      simp [lookupV]
    · simp only [lookupV, if_neg h0] at h
      rw [List.filter_cons]
      by_cases hq : p (k0, v0) = true
      · rw [if_pos hq]
        simp only [lookupV, if_neg h0]
        exact ih h hp
      · rw [if_neg hq]
        exact ih h hp

/-- The bus's notify list visits each registered observer at most once. -/
theorem notifyListB_nodup (obs : List (String × List Nat)) (etype : String) (d : EventData)
    (h : (keys obs).Nodup) : (EventBus.notifyListB obs etype d).Nodup := by
  unfold EventBus.notifyListB
  split_ifs with h1 h2
  · exact h
  · cases d.origin with
    | none => simp
    | some o =>
      cases d.destination with
      | none => simp
      | some dst =>
        simp only []
        split_ifs
        · exact h.filter _
        · simp
  · exact h.filter _

/-- C7: dedup behaviour of `EventBus.publish`.
Part 1: publishing an event whose fingerprint is identical to one published
`t2 - t1 < expiry` earlier (identical coarse stamp `t1/10 = t2/10`, first
publish not itself a duplicate) delivers nothing on the second publish, and
the first publish invokes each recipient's callback at most once — so each
recipient's callback fires at most once across both publishes.
Part 2: publishing the same event again on a bus whose dedup tables started
empty, once the expiry window has elapsed (`expiry ≤ t2 - t1`), delivers
exactly the same invocations again. -/
theorem C7_dedup :
    (∀ (st : EventBus.EB) (etype : String) (desc : PyStr) (d : EventData) (t1 t2 : Nat),
      EventBus.WF st →
      EventBus.is_recent_duplicate st.recent_events
        (EventBus.create_fingerprint etype (EventBus.prepDesc etype desc)
          (EventBus.prepData etype d) t1) t1 = false →
      t1 ≤ t2 → t1 / 10 = t2 / 10 → t2 - t1 < EventBus.event_expiry →
      ((EventBus.publish (EventBus.publish st etype desc d t1).2 etype desc d t2).1 = [] ∧
       ∀ (o : String) (cb : Nat),
         (EventBus.publish st etype desc d t1).1.countP
           (fun x => decide (x.1 = o ∧ x.2.1 = cb)) ≤ 1)) ∧
    (∀ (obs : List (String × List Nat)) (etype : String) (desc : PyStr) (d : EventData)
       (t1 t2 : Nat),
      (keys obs).Nodup → t1 ≤ t2 → EventBus.event_expiry ≤ t2 - t1 →
      (EventBus.publish (EventBus.publish (EventBus.mkBus obs) etype desc d t1).2
          etype desc d t2).1
        = (EventBus.publish (EventBus.mkBus obs) etype desc d t1).1) := by
  constructor
  · intro st etype desc d t1 t2 hwf hfresh hle hstamp hwin
    have hfpeq : EventBus.create_fingerprint etype (EventBus.prepDesc etype desc)
        (EventBus.prepData etype d) t2
        = EventBus.create_fingerprint etype (EventBus.prepDesc etype desc)
          (EventBus.prepData etype d) t1 := by
      simp [EventBus.create_fingerprint, hstamp]
    constructor
    · have hrec : (EventBus.publish st etype desc d t1).2.recent_events
          = EventBus.cleanup_old_events
              (setVal (EventBus.create_fingerprint etype (EventBus.prepDesc etype desc)
                (EventBus.prepData etype d) t1) t1 st.recent_events) t1 := by
        simp only [EventBus.publish, hfresh, Bool.false_eq_true, if_false]
      have hlk : lookupV (EventBus.create_fingerprint etype (EventBus.prepDesc etype desc)
            (EventBus.prepData etype d) t1)
          ((EventBus.publish st etype desc d t1).2.recent_events)
          = some t1 := by
        rw [hrec]
        unfold EventBus.cleanup_old_events
        exact lookupV_filter_keep _ (lookupV_setVal_self _ _ _) (by simp [EventBus.event_expiry])
      have hdup : EventBus.is_recent_duplicate
          ((EventBus.publish st etype desc d t1).2.recent_events)
          (EventBus.create_fingerprint etype (EventBus.prepDesc etype desc)
            (EventBus.prepData etype d) t2) t2 = true := by
        unfold EventBus.is_recent_duplicate
        rw [hfpeq, hlk]
        simpa using hwin
      set st1 := (EventBus.publish st etype desc d t1).2 with hst1
      show (EventBus.publish st1 etype desc d t2).1 = []
      simp only [EventBus.publish, hdup, if_true]
    · intro o cb
      have hloop : (EventBus.publish st etype desc d t1).1
          = (EventBus.publishLoop st.observers
              (EventBus.create_fingerprint etype (EventBus.prepDesc etype desc)
                (EventBus.prepData etype d) t1) t1
              (EventBus.fmtFor etype (EventBus.prepDesc etype desc) (EventBus.prepData etype d))
              (EventBus.notifyListB st.observers etype (EventBus.prepData etype d))
              st.observer_recent_events).1 := by
        simp only [EventBus.publish, hfresh, Bool.false_eq_true, if_false]
      rw [hloop]
      exact publishLoop_countP _ _ _ _ o cb hwf.2 _ _ (notifyListB_nodup _ _ _ hwf.1)
  · intro obs etype desc d t1 t2 hnd hle hexp
    have hfp_ne : EventBus.create_fingerprint etype (EventBus.prepDesc etype desc)
        (EventBus.prepData etype d) t1
        ≠ EventBus.create_fingerprint etype (EventBus.prepDesc etype desc)
          (EventBus.prepData etype d) t2 := by
      have hne10 : t1 / 10 ≠ t2 / 10 := by
        have h30 : EventBus.event_expiry = 30 := rfl
        rw [h30] at hexp
        omega
      simp [EventBus.create_fingerprint]
      intro h
      exact absurd h hne10
    have hfresh1 : EventBus.is_recent_duplicate (EventBus.mkBus obs).recent_events
        (EventBus.create_fingerprint etype (EventBus.prepDesc etype desc)
          (EventBus.prepData etype d) t1) t1 = false := rfl
    have hp1L : (EventBus.publish (EventBus.mkBus obs) etype desc d t1).1
        = ((EventBus.notifyListB obs etype (EventBus.prepData etype d)).map
            (fun ob => (lookupD ob obs []).map (fun cb => (ob, cb,
              EventBus.fmtFor etype (EventBus.prepDesc etype desc)
                (EventBus.prepData etype d) ob)))).flatten := by
      have h0 : (EventBus.publish (EventBus.mkBus obs) etype desc d t1).1
          = (EventBus.publishLoop obs
              (EventBus.create_fingerprint etype (EventBus.prepDesc etype desc)
                (EventBus.prepData etype d) t1) t1
              (EventBus.fmtFor etype (EventBus.prepDesc etype desc) (EventBus.prepData etype d))
              (EventBus.notifyListB obs etype (EventBus.prepData etype d)) []).1 := by
        simp only [EventBus.publish, hfresh1, Bool.false_eq_true, if_false]
        rfl
      rw [h0]
      apply publishLoop_all_unseen _ _ _ _ _ _ (notifyListB_nodup _ _ _ hnd)
      intro ob _
      rfl
    have hobs1 : (EventBus.publish (EventBus.mkBus obs) etype desc d t1).2.observers = obs := by
      simp only [EventBus.publish, hfresh1, Bool.false_eq_true, if_false]
      rfl
    have hrec1 : (EventBus.publish (EventBus.mkBus obs) etype desc d t1).2.recent_events
        = [(EventBus.create_fingerprint etype (EventBus.prepDesc etype desc)
            (EventBus.prepData etype d) t1, t1)] := by
      simp only [EventBus.publish, hfresh1, Bool.false_eq_true, if_false]
      simp [EventBus.cleanup_old_events, setVal, EventBus.event_expiry, EventBus.mkBus]
    have hore1 : ∀ ob e, e ∈ lookupD ob
        (EventBus.publish (EventBus.mkBus obs) etype desc d t1).2.observer_recent_events [] →
        e = (EventBus.create_fingerprint etype (EventBus.prepDesc etype desc)
          (EventBus.prepData etype d) t1, t1) := by
      have h0 : (EventBus.publish (EventBus.mkBus obs) etype desc d t1).2.observer_recent_events
          = (EventBus.publishLoop obs
              (EventBus.create_fingerprint etype (EventBus.prepDesc etype desc)
                (EventBus.prepData etype d) t1) t1
              (EventBus.fmtFor etype (EventBus.prepDesc etype desc) (EventBus.prepData etype d))
              (EventBus.notifyListB obs etype (EventBus.prepData etype d)) []).2 := by
        simp only [EventBus.publish, hfresh1, Bool.false_eq_true, if_false]
        rfl
      rw [h0]
      apply publishLoop_entries
      intro ob e he
      simp [lookupD, lookupV] at he
    have hfresh2 : EventBus.is_recent_duplicate
        (EventBus.publish (EventBus.mkBus obs) etype desc d t1).2.recent_events
        (EventBus.create_fingerprint etype (EventBus.prepDesc etype desc)
          (EventBus.prepData etype d) t2) t2 = false := by
      rw [hrec1]
      unfold EventBus.is_recent_duplicate
      rw [show lookupV (EventBus.create_fingerprint etype (EventBus.prepDesc etype desc)
          (EventBus.prepData etype d) t2)
          [(EventBus.create_fingerprint etype (EventBus.prepDesc etype desc)
            (EventBus.prepData etype d) t1, t1)] = none by
        simp [lookupV, hfp_ne]]
    rw [hp1L]
    set st1 := (EventBus.publish (EventBus.mkBus obs) etype desc d t1).2 with hst1
    have h0 : (EventBus.publish st1 etype desc d t2).1
        = (EventBus.publishLoop st1.observers
            (EventBus.create_fingerprint etype (EventBus.prepDesc etype desc)
              (EventBus.prepData etype d) t2) t2
            (EventBus.fmtFor etype (EventBus.prepDesc etype desc) (EventBus.prepData etype d))
            (EventBus.notifyListB st1.observers etype (EventBus.prepData etype d))
            st1.observer_recent_events).1 := by
      simp only [EventBus.publish, hfresh2, Bool.false_eq_true, if_false]
    rw [h0, hobs1]
    apply publishLoop_all_unseen _ _ _ _ _ _ (notifyListB_nodup _ _ _ hnd)
    intro ob _
    have hclean : EventBus.cleanEntries (lookupD ob st1.observer_recent_events []) t2
        = [] := by
      unfold EventBus.cleanEntries
      rw [List.filter_eq_nil_iff]
      intro e he
      have he2 := hore1 ob e he
      subst he2
      simp only [decide_eq_true_eq, not_lt]
      have h30 : EventBus.event_expiry = 30 := rfl
      rw [h30] at hexp ⊢
      omega
    rw [hclean]
    rfl

/-- C7, witness: Alice and Bob each receive Bob's speech once at t=10.0s;
re-publishing at t=10.5s (same coarse second) delivers nothing;
re-publishing at t=14.0s (after the 3-second expiry) delivers to both
again. -/
theorem C7_witness :
    (EventBus.publish (EventBus.publish EventBus.busC7 "speech" ("Bob says hi".data)
        EventBus.evC7 100).2 "speech" ("Bob says hi".data) EventBus.evC7 105).1 = [] ∧
    (EventBus.publish (EventBus.publish EventBus.busC7 "speech" ("Bob says hi".data)
        EventBus.evC7 100).2 "speech" ("Bob says hi".data) EventBus.evC7 140).1
      = (EventBus.publish EventBus.busC7 "speech" ("Bob says hi".data) EventBus.evC7 100).1 := by
  constructor
  · exact (C7_dedup.1 EventBus.busC7 "speech" ("Bob says hi".data) EventBus.evC7 100 105
      ⟨by decide, by decide⟩ (by decide) (by decide) (by decide) (by decide)).1
  · exact C7_dedup.2 [("Alice", [1]), ("Bob", [2])] "speech" ("Bob says hi".data)
      EventBus.evC7 100 140 (by decide) (by decide) (by decide)

/-- C8, amended: the dispatcher's registry has replace semantics
(registering `c1` then `c2` for the same actor yields the very state
produced by registering only `c2`), while the bus's registry has
append-if-absent semantics: after `register`, the actor's callback list is
its old list with the new callback appended unless already present — so on
the bus an actor can hold several live callbacks at once, contradicting the
original claim (see the counterexample). -/
theorem C8_amended :
    (∀ (st : EventDispatcher.ED) (a : String) (c1 c2 : Nat),
      EventDispatcher.register (EventDispatcher.register st a c1) a c2
        = EventDispatcher.register st a c2) ∧
    (∀ (st : EventBus.EB) (a : String) (cb : Nat),
      lookupV a (EventBus.register st a cb).observers
        = some (if cb ∈ lookupD a st.observers [] then lookupD a st.observers []
                else lookupD a st.observers [] ++ [cb])) := by
  constructor
  · intro st a c1 c2
    unfold EventDispatcher.register
    rw [setVal_setVal_same]
  · intro st a cb
    unfold EventBus.register
    exact lookupV_setVal_self _ _ _
